import Mathlib

/-!
Verification development for the research-assistant content-processing
pipeline: a shallow embedding of the text chunker
(`src/.../modules/text-chunker`), the relevance scorer
(`src/.../modules/relevance-scorer.ts`) and the web scraper
(`src/.../modules/web-scraper.ts`), followed by theorems settling the
frozen behavioural claims about them.

JavaScript numbers that can become `NaN` are embedded as `Option ℚ`
(`none` = `NaN`); all other numeric code uses `ℚ` (for scores) or `Nat`
(for indices and counts).  Wall-clock fields (`processingTime`,
`scrapingTime`) are modelled as the constant `0`: no claim mentions them.
Recursions that are not structural carry an explicit `fuel` argument,
always called with more fuel than the input can consume, so that every
definition evaluates by kernel reduction.
-/

set_option linter.unusedVariables false

/- The arithmetic of `Rat` is `@[irreducible]` in the library, which
blocks `decide` on concrete score computations; scores here are exact
rationals, so reduction is safe. -/
set_option allowUnsafeReducibility true
attribute [local semireducible] Rat.add Rat.mul Rat.inv Rat.sub Rat.ofScientific

/-! ## JavaScript string primitives

The source manipulates strings through a handful of regex operations
(`split(/\s+/)`, `replace(/[ \t]+/g, ' ')`, `indexOf`, `trim`, ...).
These are embedded as total functions on `List Char` / `String`,
matching JavaScript semantics on the character classes the code uses. -/

/-- Characters matched by the JavaScript `\s` class (the ASCII part,
which is the only part the pipeline's inputs contain). -/
def isJsWs (c : Char) : Bool :=
  c = ' ' || c = '\n' || c = '\t' || c = '\r' || c = '\x0b' || c = '\x0c'

/-- Worker for `jsSplitWs`: `cur` is the reversed current fragment,
`inRun` records whether the previous character was whitespace (so a
continuing run emits nothing). -/
def splitWsAux (inRun : Bool) (cur : List Char) : List Char → List (List Char)
  | [] => [cur.reverse]
  | c :: rest =>
    if isJsWs c then
      if inRun then splitWsAux true cur rest
      else cur.reverse :: splitWsAux true [] rest
    else splitWsAux false (c :: cur) rest

/-- JavaScript `s.split(/\s+/)`: splits on maximal whitespace runs, and
keeps the empty fragments a leading/trailing run produces
(`"".split` is `[""]`, `" a"` splits to `["", "a"]`). -/
def jsSplitWs (s : String) : List String :=
  (splitWsAux false [] s.toList).map List.asString

/-- JavaScript `String.prototype.trim` (whitespace at both ends). -/
def jsTrim (s : String) : String :=
  (((s.toList.dropWhile isJsWs).reverse.dropWhile isJsWs).reverse).asString

/-- Does `hay` start with `needle` (character-wise)? -/
def listStartsWith : List Char → List Char → Bool
  | _, [] => true
  | [], _ :: _ => false
  | a :: as, b :: bs => a = b && listStartsWith as bs

/-- Worker for `jsIndexOf`. -/
def jsIndexOfGo (needle : List Char) : List Char → Nat → Option Nat
  | hay, i =>
    if listStartsWith hay needle then some i
    else
      match hay with
      | [] => none
      | _ :: t => jsIndexOfGo needle t (i + 1)

/-- JavaScript `hay.indexOf(needle)`, with `none` playing `-1`. -/
def jsIndexOf (hay needle : String) : Option Nat :=
  jsIndexOfGo needle.toList hay.toList 0

/-- JavaScript `hay.includes(needle)` / regex substring test. -/
def jsContains (hay needle : String) : Bool :=
  (jsIndexOf hay needle).isSome

/-- Worker for `jsSplitOnChar`: split at every occurrence of `sep`
(JavaScript `split('x')` semantics: `""` gives `[""]`, separators at the
edges give empty fragments). -/
def splitOnCharAux (sep : Char) (cur : List Char) : List Char → List (List Char)
  | [] => [cur.reverse]
  | c :: rest =>
    if c = sep then cur.reverse :: splitOnCharAux sep [] rest
    else splitOnCharAux sep (c :: cur) rest

/-- JavaScript `s.split(sep)` for a single-character separator. -/
def jsSplitOnChar (sep : Char) (s : String) : List String :=
  (splitOnCharAux sep [] s.toList).map List.asString

/-- JavaScript `s.startsWith(p)`. -/
def jsStartsWith (s p : String) : Bool :=
  listStartsWith s.toList p.toList

/-- JavaScript `toLowerCase` on the ASCII range (the only characters
the queries and patterns contain). -/
def charToLowerAscii (c : Char) : Char :=
  if 'A' ≤ c && c ≤ 'Z' then Char.ofNat (c.toNat + 32) else c

/-- JavaScript `s.toLowerCase()` (ASCII). -/
def jsToLower (s : String) : String :=
  (s.toList.map charToLowerAscii).asString

/-- Fused `replace(/\r\n/g, '\n').replace(/\r/g, '\n')`: every `\r\n`
pair and every stray `\r` becomes a single `\n`. -/
def normalizeCr : List Char → List Char
  | [] => []
  | '\r' :: '\n' :: rest => '\n' :: normalizeCr rest
  | '\r' :: rest => '\n' :: normalizeCr rest
  | c :: rest => c :: normalizeCr rest

/-- Emit a run of `run` newlines, applying `replace(/\n{3,}/g, '\n\n')`. -/
def emitNlRun (run : Nat) (tail : List Char) : List Char :=
  (if 3 ≤ run then ['\n', '\n'] else List.replicate run '\n') ++ tail

/-- Worker for `replace(/\n{3,}/g, '\n\n')`: `run` counts the pending
newline run. -/
def collapseNlAux (run : Nat) : List Char → List Char
  | [] => emitNlRun run []
  | c :: rest =>
    if c = '\n' then collapseNlAux (run + 1) rest
    else emitNlRun run (c :: collapseNlAux 0 rest)

/-- JavaScript `replace(/\n{3,}/g, '\n\n')`. -/
def collapseNl (l : List Char) : List Char := collapseNlAux 0 l

/-- JavaScript `replace(/[ \t]+/g, ' ')`: `inRun` records whether we are
inside a space/tab run (which has already emitted its single space). -/
def collapseSpTabAux (inRun : Bool) : List Char → List Char
  | [] => []
  | c :: rest =>
    if c = ' ' || c = '\t' then
      if inRun then collapseSpTabAux true rest
      else ' ' :: collapseSpTabAux true rest
    else c :: collapseSpTabAux false rest

/-- JavaScript `replace(/[ \t]+/g, ' ')`. -/
def collapseSpTab (l : List Char) : List Char := collapseSpTabAux false l

example : jsSplitWs "" = [""] := by decide
example : jsSplitWs " a  b " = ["", "a", "b", ""] := by decide
example : jsTrim "  a b \n" = "a b" := by decide
example : jsIndexOf "hello" "ll" = some 2 := by decide
example : jsIndexOf "hello" "z" = none := by decide
example : (normalizeCr "a\r\nb\rc".toList).asString = "a\nb\nc" := by decide
example : (collapseNl "a\n\n\n\nb\n\nc".toList).asString = "a\n\nb\n\nc" := by decide
example : (collapseSpTab "a \t b".toList).asString = "a b" := by decide

/-! ## Text chunker (`text-chunker` module, in `src/unnamed/part_003`) -/

namespace TextChunker

/-- `TextChunk.metadata` from the source (the `end`-like field is named
`endIndex` there already; `position` is 1-based). -/
structure ChunkMetadata where
  position : Nat
  wordCount : Nat
  charCount : Nat
  startIndex : Nat
  endIndex : Nat
  hasOverlap : Bool
  chunkingMethod : String
  sectionTitle : Option String
deriving Repr, DecidableEq

/-- `TextChunk.source` from the source. -/
structure ChunkSource where
  url : String
  title : String
  originalIndex : Nat
deriving Repr, DecidableEq

/-- `TextChunk` from the source. -/
structure TextChunk where
  id : String
  content : String
  metadata : ChunkMetadata
  source : ChunkSource
deriving Repr, DecidableEq

/-- `ChunkedContent.metadata` (processingTime modelled as 0). -/
structure ChunkingMetadata where
  totalChunks : Nat
  averageChunkSize : Nat
  chunkingStrategy : String
  processingTime : Nat
  originalLength : Nat
  totalChunkedLength : Nat
deriving Repr, DecidableEq

/-- `ChunkedContent` from the source. -/
structure ChunkedContent where
  chunks : List TextChunk
  metadata : ChunkingMetadata
deriving Repr, DecidableEq

/-- `TextChunkerInput` from the source. -/
structure TextChunkerInput where
  content : String
  title : String
  url : String
  originalIndex : Nat
deriving Repr, DecidableEq

/-- `CHUNKING_CONFIG` from the source. -/
structure ChunkingConfig where
  targetChunkSize : Nat
  minChunkSize : Nat
  maxChunkSize : Nat
  overlapSize : Nat
  preserveSentences : Bool
  preserveParagraphs : Bool
deriving Repr, DecidableEq

def CHUNKING_CONFIG : ChunkingConfig :=
  { targetChunkSize := 800
    minChunkSize := 300
    maxChunkSize := 1200
    overlapSize := 100
    preserveSentences := true
    preserveParagraphs := true }

/-- A detected section header: `{start, end, title}` (the `end` field is
renamed `stop`, `end` being a Lean keyword). -/
structure SectionInfo where
  start : Nat
  stop : Nat
  title : String
deriving Repr, DecidableEq

/-- A detected paragraph span `{start, end}`. -/
structure ParaInfo where
  start : Nat
  stop : Nat
deriving Repr, DecidableEq

/-- Result of `preprocessTextForChunking`. -/
structure PreprocessResult where
  processedText : String
  sections : List SectionInfo
  paragraphs : List ParaInfo
deriving Repr, DecidableEq

/-- The words the source refuses to treat as section-header starts
(the regex `/^(The|A|An|This|That|These|Those|In|On|At|For|With|By)/`;
note the alternatives are unanchored on the right, so e.g. `"Integration"`
matches via `"In"`). -/
def headerStopWords : List String :=
  ["The", "A", "An", "This", "That", "These", "Those", "In", "On", "At",
   "For", "With", "By"]

/-- The per-line section-header test from `preprocessTextForChunking`. -/
def isSectionHeader (trimmed : String) : Bool :=
  0 < trimmed.length &&
  trimmed.length < 100 &&
  (match trimmed.toList with
   | c :: _ => 'A' ≤ c && c ≤ 'Z'
   | [] => false) &&
  !(match trimmed.toList.getLast? with
    | some c => c = '.' || c = '!' || c = '?'
    | none => false) &&
  (jsSplitOnChar ' ' trimmed).length ≤ 8 &&
  !headerStopWords.any (fun w => jsStartsWith trimmed w)

/-- The section-detection pass of `preprocessTextForChunking`: for each
line passing `isSectionHeader`, record `indexOf(line)` bounds. -/
def detectSections (processedText : String) : List SectionInfo :=
  (jsSplitOnChar '\n' processedText).filterMap (fun line =>
    let trimmed := jsTrim line
    if isSectionHeader trimmed then
      match jsIndexOf processedText line with
      | some start =>
        some { start := start, stop := start + line.length, title := trimmed }
      | none => none
    else none)

/-- Last index of `'\n'` in a character list (used by the greedy
`\n\s*\n` separator match). -/
def lastNlIdx : List Char → Option Nat
  | [] => none
  | c :: rest =>
    match lastNlIdx rest with
    | some k => some (k + 1)
    | none => if c = '\n' then some 0 else none

/-- Given the characters after a candidate `'\n'`, try to complete the
greedy regex `\n\s*\n`: take the whitespace run and require it to
contain another `'\n'`; the match ends after the last such `'\n'`. -/
def paraSepTail (rest : List Char) : Option (List Char) :=
  match lastNlIdx (rest.takeWhile isJsWs) with
  | some k => some (rest.drop (k + 1))
  | none => none

/-- Worker for `split(/\n\s*\n/)`; `fuel` strictly exceeds the number of
characters left, so the fallback branch is unreachable. -/
def paraSplitAux (fuel : Nat) (cur : List Char) (l : List Char) : List (List Char) :=
  match fuel with
  | 0 => [cur.reverse ++ l]
  | fuel + 1 =>
    match l with
    | [] => [cur.reverse]
    | c :: rest =>
      if c = '\n' then
        match paraSepTail rest with
        | some rem => cur.reverse :: paraSplitAux fuel [] rem
        | none => paraSplitAux fuel (c :: cur) rest
      else paraSplitAux fuel (c :: cur) rest

/-- JavaScript `s.split(/\n\s*\n/)`. -/
def jsSplitPara (s : String) : List String :=
  (paraSplitAux (s.toList.length + 1) [] s.toList).map List.asString

/-- The paragraph-position fold of `preprocessTextForChunking`: assumes a
2-character separator when advancing `currentIndex` (exactly as the
source does). -/
def detectParagraphsGo (currentIndex : Nat) : List String → List ParaInfo
  | [] => []
  | p :: rest =>
    if 0 < (jsTrim p).length then
      { start := currentIndex, stop := currentIndex + p.length } ::
        detectParagraphsGo (currentIndex + p.length + 2) rest
    else detectParagraphsGo currentIndex rest

def detectParagraphs (processedText : String) : List ParaInfo :=
  detectParagraphsGo 0 (jsSplitPara processedText)

/-- `preprocessTextForChunking` from the source: normalize line endings,
collapse newline/space runs, trim, then detect sections and paragraphs. -/
def preprocessTextForChunking (content : String) : PreprocessResult :=
  let processedText :=
    jsTrim (collapseSpTab (collapseNl (normalizeCr content.toList))).asString
  { processedText := processedText
    sections := detectSections processedText
    paragraphs := detectParagraphs processedText }

example :
    (preprocessTextForChunking "hello").processedText = "hello" := by decide
example : (preprocessTextForChunking "hello").sections = [] := by decide
example :
    (preprocessTextForChunking "hello").paragraphs = [⟨0, 5⟩] := by decide
example :
    (preprocessTextForChunking "Intro Heading\n\nBody text.").sections = [] := by
  decide
example :
    (preprocessTextForChunking "Results\n\nBody text.").sections =
      [⟨0, 7, "Results"⟩] := by decide

/-- `words.slice(0, i).join(' ').length`, the char index the boundary
search associates with word index `i`. -/
def joinLen (ws : List String) : Nat :=
  (String.intercalate " " ws).length

/-- `Math.abs(a - b)` on naturals. -/
def natDist (a b : Nat) : Nat := max a b - min a b

/-- The descending index list `[hi, hi-1, ..., lo]` walked by the
strategy-2/3 `for` loops (empty when `lo > hi`). -/
def revRange (lo hi : Nat) : List Nat :=
  (List.range' lo (hi + 1 - lo)).reverse

/-- Does a word end in `.`, `!` or `?` (the `/[.!?]$/` test)? -/
def endsWithPunct : Option String → Bool
  | some w =>
    (match w.toList.getLast? with
     | some c => c = '.' || c = '!' || c = '?'
     | none => false)
  | none => false

/-- Strategy 1 of the boundary search: a section header whose start lies
within 200 characters of the target position, provided its word index
leaves more than `minChunkSize` words since `current`. -/
def strategy1 (words : List String) (sections : List SectionInfo)
    (current target : Nat) : Nat :=
  let currentCharIndex := joinLen (words.take target)
  match sections.find? (fun sec => natDist sec.start currentCharIndex < 200) with
  | some sec =>
    match (List.range words.length).find?
        (fun idx => sec.start ≤ joinLen (words.take (idx + 1))) with
    | some sectionWordIndex =>
      if current + CHUNKING_CONFIG.minChunkSize < sectionWordIndex then
        sectionWordIndex
      else target
    | none => target
  | none => target

/-- Strategy 2 of the boundary search: the closest paragraph end within
100 words of the target, consulted only when strategy 1 returned the
target unchanged. -/
def strategy2 (words : List String) (paragraphs : List ParaInfo)
    (current target b1 : Nat) : Nat :=
  if b1 = target then
    let searchStart := max (current + CHUNKING_CONFIG.minChunkSize) (target - 100)
    let searchEnd := min (target + 100) words.length
    match (revRange searchStart searchEnd).find?
        (fun i => paragraphs.any (fun p => natDist p.stop (joinLen (words.take i)) < 50)) with
    | some i => i
    | none => b1
  else b1

/-- Strategy 3 of the boundary search: the closest sentence end within
50 words of the target, consulted only when the earlier strategies
returned the target unchanged. -/
def strategy3 (words : List String) (current target b2 : Nat) : Nat :=
  if b2 = target then
    let searchStart := max (current + CHUNKING_CONFIG.minChunkSize) (target - 50)
    let searchEnd := min (target + 50) words.length
    match (revRange searchStart searchEnd).find?
        (fun i => endsWithPunct (words.get? (i - 1))) with
    | some i => i
    | none => b2
  else b2

/-- The three boundary-search strategies of `findOptimalChunkBoundaries`
(section header, then paragraph, then sentence end), before clamping. -/
def strategyBoundary (words : List String) (sections : List SectionInfo)
    (paragraphs : List ParaInfo) (current target : Nat) : Nat :=
  strategy3 words current target
    (strategy2 words paragraphs current target
      (strategy1 words sections current target))

/-- The final clamp of each boundary against `minChunkSize` /
`maxChunkSize` (JavaScript's negative differences land in the first
branch exactly like truncated subtraction does). -/
def clampBoundary (current len b : Nat) : Nat :=
  if b - current < CHUNKING_CONFIG.minChunkSize then
    min (current + CHUNKING_CONFIG.minChunkSize) len
  else if CHUNKING_CONFIG.maxChunkSize < b - current then
    current + CHUNKING_CONFIG.maxChunkSize
  else b

/-- The `while` loop of `findOptimalChunkBoundaries`.  Note that when the
target position reaches the end of the word list the loop `break`s
without ever pushing a final boundary — the last partial stride is
dropped.  `fuel` strictly exceeds the words left, and every iteration
advances the position, so the fuel never runs out. -/
def boundariesLoop (fuel : Nat) (words : List String) (sections : List SectionInfo)
    (paragraphs : List ParaInfo) (targetSize current : Nat) : List Nat :=
  match fuel with
  | 0 => []
  | fuel + 1 =>
    if current < words.length then
      let target := min (current + targetSize) words.length
      if words.length ≤ target then []
      else
        let b := clampBoundary current words.length
          (strategyBoundary words sections paragraphs current target)
        b :: boundariesLoop fuel words sections paragraphs targetSize b
    else []

/-- `findOptimalChunkBoundaries` from the source. -/
def findOptimalChunkBoundaries (text : String) (targetSize : Nat)
    (sections : List SectionInfo) (paragraphs : List ParaInfo) : List Nat :=
  let words := jsSplitWs text
  0 :: boundariesLoop (words.length + 1) words sections paragraphs targetSize 0

/-- `/[.!?]\s*$/` applied to an already-trimmed string. -/
def endsWithPunctStr (s : String) : Bool := endsWithPunct (some s)

/-- `createChunksWithOverlap` from the source: materialize one chunk per
adjacent boundary pair, extending by `overlapSize` words on the inner
sides, skipping chunks whose content trims to empty. -/
def createChunksWithOverlap (text : String) (boundaries : List Nat)
    (input : TextChunkerInput) : List TextChunk :=
  let words := jsSplitWs text
  let pairs := boundaries.zip boundaries.tail
  pairs.enum.filterMap (fun p =>
    let i := p.1
    let startBoundary := p.2.1
    let endBoundary := p.2.2
    let chunkStart :=
      if 0 < i then startBoundary - CHUNKING_CONFIG.overlapSize else startBoundary
    let chunkEnd :=
      if i < pairs.length - 1 then
        min words.length (endBoundary + CHUNKING_CONFIG.overlapSize)
      else endBoundary
    let hasOverlap := decide (0 < i) || decide (i < pairs.length - 1)
    let chunkWords := (words.drop chunkStart).take (chunkEnd - chunkStart)
    let chunkContent := String.intercalate " " chunkWords
    if (jsTrim chunkContent).length = 0 then none
    else
      let chunkingMethod :=
        if endsWithPunctStr (jsTrim chunkContent) then "sentence_boundary"
        else if jsContains chunkContent "\n\n" then "paragraph_boundary"
        else "word_boundary"
      some
        { id := toString input.originalIndex ++ "-chunk-" ++ toString (i + 1)
          content := jsTrim chunkContent
          metadata :=
            { position := i + 1
              wordCount := chunkWords.length
              charCount := chunkContent.length
              startIndex := chunkStart
              endIndex := chunkEnd
              hasOverlap := hasOverlap
              chunkingMethod := chunkingMethod
              sectionTitle := none }
          source :=
            { url := input.url, title := input.title,
              originalIndex := input.originalIndex } })

/-- JavaScript `a || b` on the optional `section` strings. -/
def jsOrOptStr (a b : Option String) : Option String :=
  match a with
  | some s => if s.length = 0 then b else some s
  | none => b

/-- A chunk re-emitted as-is by `validateAndOptimizeChunks` (fresh id and
position from the output offset `n`). -/
def reposChunk (n : Nat) (c : TextChunk) : TextChunk :=
  { c with
    id := toString c.source.originalIndex ++ "-chunk-" ++ toString (n + 1)
    metadata := { c.metadata with position := n + 1 } }

/-- One split piece of an oversized chunk. -/
def mkSplitChunk (src : TextChunk) (n j : Nat) (piece : List String)
    (splitContent : String) : TextChunk :=
  { id := toString src.source.originalIndex ++ "-chunk-" ++ toString (n + 1)
    content := splitContent
    metadata :=
      { position := n + 1
        wordCount := piece.length
        charCount := splitContent.length
        startIndex := src.metadata.startIndex + j
        endIndex := src.metadata.startIndex + j + piece.length
        hasOverlap := decide (0 < j)
        chunkingMethod := "split_large_chunk"
        sectionTitle := src.metadata.sectionTitle }
    source := src.source }

/-- The split loop for a chunk above `maxChunkSize`: pieces of
`splitSize = maxChunkSize / 2` words, skipping empty pieces.  `fuel`
strictly exceeds the number of words. -/
def splitPiecesGo (fuel : Nat) (src : TextChunk) (n j : Nat)
    (ws : List String) : List TextChunk :=
  match fuel with
  | 0 => []
  | fuel + 1 =>
    match ws with
    | [] => []
    | _ :: _ =>
      let splitSize := CHUNKING_CONFIG.maxChunkSize / 2
      let piece := ws.take splitSize
      let splitContent := String.intercalate " " piece
      if (jsTrim splitContent).length = 0 then
        splitPiecesGo fuel src n (j + splitSize) (ws.drop splitSize)
      else
        mkSplitChunk src n j piece splitContent ::
          splitPiecesGo fuel src (n + 1) (j + splitSize) (ws.drop splitSize)

/-- Emit one chunk of the validation pass that was not merged: split it
if it exceeds `maxChunkSize`, otherwise renumber it as-is. -/
def emitOne (n : Nat) (c : TextChunk) : List TextChunk :=
  if CHUNKING_CONFIG.maxChunkSize < c.metadata.wordCount then
    let words := jsSplitWs c.content
    splitPiecesGo (words.length + 1) c n 0 words
  else [reposChunk n c]

/-- The merged chunk produced when an undersized chunk absorbs its
successor. -/
def mkMergedChunk (n : Nat) (c next : TextChunk) (mergedContent : String)
    (mergedWordCount : Nat) : TextChunk :=
  { id := toString c.source.originalIndex ++ "-chunk-" ++ toString (n + 1)
    content := mergedContent
    metadata :=
      { position := n + 1
        wordCount := mergedWordCount
        charCount := mergedContent.length
        startIndex := c.metadata.startIndex
        endIndex := next.metadata.endIndex
        hasOverlap := c.metadata.hasOverlap || next.metadata.hasOverlap
        chunkingMethod := "merged_chunks"
        sectionTitle := jsOrOptStr c.metadata.sectionTitle next.metadata.sectionTitle }
    source := c.source }

/-- The loop of `validateAndOptimizeChunks`: `n` is the number of chunks
already emitted (positions are `n + 1`-based).  A chunk below
`minChunkSize` that is not the last chunk merges with its successor only
when the merged word count stays within `maxChunkSize`; otherwise it
falls through and is emitted as-is. -/
def validateGo (fuel : Nat) (n : Nat) (chunks : List TextChunk) : List TextChunk :=
  match fuel with
  | 0 => []
  | fuel + 1 =>
    match chunks with
    | [] => []
    | [c] => emitOne n c
    | c :: next :: rest2 =>
      if c.metadata.wordCount < CHUNKING_CONFIG.minChunkSize then
        let mergedContent := c.content ++ " " ++ next.content
        let mergedWordCount := (jsSplitWs mergedContent).length
        if mergedWordCount ≤ CHUNKING_CONFIG.maxChunkSize then
          mkMergedChunk n c next mergedContent mergedWordCount ::
            validateGo fuel (n + 1) rest2
        else
          emitOne n c ++ validateGo fuel (n + (emitOne n c).length) (next :: rest2)
      else
        emitOne n c ++ validateGo fuel (n + (emitOne n c).length) (next :: rest2)

/-- `validateAndOptimizeChunks` from the source. -/
def validateAndOptimizeChunks (chunks : List TextChunk) : List TextChunk :=
  validateGo (chunks.length + 1) 0 chunks

/-- `Math.round(sum / len)` for the average chunk size. -/
def jsRoundDiv (sum len : Nat) : Nat :=
  (Int.floor ((sum : ℚ) / (len : ℚ) + 1 / 2)).toNat

/-- `chunkText` from the source (pure: the only effects are logging and
timing). -/
def chunkText (input : TextChunkerInput) : ChunkedContent :=
  let originalLength := input.content.length
  let pre := preprocessTextForChunking input.content
  let boundaries := findOptimalChunkBoundaries pre.processedText
    CHUNKING_CONFIG.targetChunkSize pre.sections pre.paragraphs
  let rawChunks := createChunksWithOverlap pre.processedText boundaries input
  let optimizedChunks := validateAndOptimizeChunks rawChunks
  let totalChunkedLength := (optimizedChunks.map (fun c => c.content.length)).sum
  let averageChunkSize :=
    if 0 < optimizedChunks.length then
      jsRoundDiv (optimizedChunks.map (fun c => c.metadata.wordCount)).sum
        optimizedChunks.length
    else 0
  { chunks := optimizedChunks
    metadata :=
      { totalChunks := optimizedChunks.length
        averageChunkSize := averageChunkSize
        chunkingStrategy := "smart_boundary_with_overlap"
        processingTime := 0
        originalLength := originalLength
        totalChunkedLength := totalChunkedLength } }

example :
    (chunkText { content := "hello", title := "t", url := "u", originalIndex := 0 }).chunks
      = [] := by decide

end TextChunker

/-! ## Relevance scorer (`relevance-scorer.ts`)

JSON values coming back from the external scoring capability are
embedded as `JSVal`; JavaScript numbers that may be `NaN` as
`Option ℚ` (`none` = `NaN`). -/

namespace RelevanceScorer

open TextChunker (TextChunk)

/-- A JSON-representable JavaScript value, as far as the scorer's
validation code can observe it (`undef` doubles as a missing field). -/
inductive JSVal where
  | num (q : ℚ)
  | str (s : String)
  | boolv (b : Bool)
  | nullv
  | undef
deriving Repr, DecidableEq

/-- A JavaScript number: `none` is `NaN`. -/
abbrev JSNum := Option ℚ

/-- JavaScript truthiness of a `JSVal`. -/
def jsTruthy : JSVal → Bool
  | .num q => q ≠ 0
  | .str s => s.length ≠ 0
  | .boolv b => b
  | .nullv => false
  | .undef => false

/-- `v || 0`. -/
def jsOrZero (v : JSVal) : JSVal :=
  if jsTruthy v then v else .num 0

/-- Digits of a numeric string folded to a natural number. -/
def digitsToNat (l : List Char) : Nat :=
  l.foldl (fun a c => a * 10 + (c.toNat - 48)) 0

/-- Is `c` an ASCII digit? -/
def isDigitCh (c : Char) : Bool := '0' ≤ c && c ≤ '9'

/-- Unsigned decimal core of JavaScript's string-to-number coercion
(`"12"`, `"12.5"`, `"12."`, `".5"`; exotic forms such as exponents or
hex, which the pipeline never produces, coerce to `NaN` here). -/
def jsStrToNumCore (cs : List Char) : Option ℚ :=
  let ip := cs.takeWhile isDigitCh
  match cs.dropWhile isDigitCh with
  | [] => if ip.isEmpty then none else some (digitsToNat ip)
  | '.' :: fp =>
    if fp.all isDigitCh && !(ip.isEmpty && fp.isEmpty) then
      some ((digitsToNat ip : ℚ) + (digitsToNat fp : ℚ) / (10 ^ fp.length))
    else none
  | _ => none

/-- JavaScript `Number(string)`: trimmed, empty means `0`, optional
sign, otherwise the decimal core. -/
def jsStringToNumber (s : String) : Option ℚ :=
  match (jsTrim s).toList with
  | [] => some 0
  | '-' :: rest => (jsStrToNumCore rest).map Neg.neg
  | '+' :: rest => jsStrToNumCore rest
  | l => jsStrToNumCore l

/-- JavaScript `ToNumber` on a `JSVal` (`none` = `NaN`). -/
def jsToNumber : JSVal → JSNum
  | .num q => some q
  | .str s => jsStringToNumber s
  | .boolv b => some (if b then 1 else 0)
  | .nullv => some 0
  | .undef => none

/-- `Math.min` (`NaN` absorbs). -/
def jsMinN (a b : JSNum) : JSNum :=
  match a, b with
  | some x, some y => some (min x y)
  | _, _ => none

/-- `Math.max` (`NaN` absorbs). -/
def jsMaxN (a b : JSNum) : JSNum :=
  match a, b with
  | some x, some y => some (max x y)
  | _, _ => none

/-- JavaScript `+` on numbers (`NaN` propagates). -/
def jsAdd (a b : JSNum) : JSNum :=
  match a, b with
  | some x, some y => some (x + y)
  | _, _ => none

/-- JavaScript `*` on numbers (`NaN` propagates). -/
def jsMul (a b : JSNum) : JSNum :=
  match a, b with
  | some x, some y => some (x * y)
  | _, _ => none

/-- JavaScript `/` on numbers.  The scorer only divides by a non-zero
count, so division by zero is mapped to `NaN` for totality. -/
def jsDiv (a b : JSNum) : JSNum :=
  match a, b with
  | some x, some y => if y = 0 then none else some (x / y)
  | _, _ => none

/-- JavaScript `a >= b` (false whenever a side is `NaN`). -/
def jsGe (a b : JSNum) : Bool :=
  match a, b with
  | some x, some y => y ≤ x
  | _, _ => false

/-- JavaScript `a < b` (false whenever a side is `NaN`). -/
def jsLt (a b : JSNum) : Bool :=
  match a, b with
  | some x, some y => x < y
  | _, _ => false

/-- `QueryType` from the source. -/
inductive QueryType where
  | definition | howTo | comparison | technical | conceptual | general
deriving Repr, DecidableEq

/-- `QueryIntent` from the source. -/
inductive QueryIntent where
  | learn | solve | compare | implement | understand
deriving Repr, DecidableEq

/-- `QueryComplexity` from the source. -/
inductive QueryComplexity where
  | simple | moderate | complex
deriving Repr, DecidableEq

/-- `QueryAnalysis` from the source. -/
structure QueryAnalysis where
  type : QueryType
  keyTerms : List String
  intent : QueryIntent
  complexity : QueryComplexity
deriving Repr, DecidableEq

/-- One entry of the scoring capability's JSON response, before any
validation (each field can be anything; `reasons`/`keyMatches` are
`none` when the field is not an array of strings). -/
structure RawScore where
  chunkIndex : JSVal
  relevanceScore : JSVal
  qualityScore : JSVal
  reasons : Option (List String)
  keyMatches : Option (List String)
deriving Repr, DecidableEq

/-- `ChunkRelevanceScore` after `validateAndNormalizeScores` (scores are
JavaScript numbers, hence possibly `NaN`). -/
structure NormScore where
  chunkIndex : JSVal
  relevanceScore : JSNum
  qualityScore : JSNum
  reasons : List String
  keyMatches : List String
deriving Repr, DecidableEq

/-- `RankedChunk` from the source (diversity and position scores are
computed internally and can never be `NaN`). -/
structure RankedChunk where
  chunk : TextChunk
  relevanceScore : JSNum
  qualityScore : JSNum
  diversityScore : ℚ
  positionScore : ℚ
  finalScore : JSNum
  reasons : List String
  keyMatches : List String
  rank : Nat
deriving Repr, DecidableEq

/-- `filtering` statistics of `RelevanceScoringResult` (processingTime
modelled as 0). -/
structure FilteringStats where
  totalChunks : Nat
  filteredChunks : Nat
  averageRelevance : JSNum
  filteringStrategy : String
  processingTime : Nat
deriving Repr, DecidableEq

/-- `RelevanceScoringResult` from the source. -/
structure RelevanceScoringResult where
  rankedChunks : List RankedChunk
  filtering : FilteringStats
  queryAnalysis : QueryAnalysis
deriving Repr, DecidableEq

/-- `RELEVANCE_CONFIG.weights`. -/
structure ScoringWeights where
  relevance : ℚ
  quality : ℚ
  diversity : ℚ
  position : ℚ
deriving Repr, DecidableEq

/-- `RELEVANCE_CONFIG.thresholds`. -/
structure ScoringThresholds where
  minimumRelevance : ℚ
  minimumQuality : ℚ
  minimumFinalScore : ℚ
deriving Repr, DecidableEq

/-- `RELEVANCE_CONFIG.chunkLimits`. -/
structure ChunkLimits where
  simple : Nat
  moderate : Nat
  complex : Nat
deriving Repr, DecidableEq

/-- `RELEVANCE_CONFIG` from the source. -/
structure RelevanceConfig where
  weights : ScoringWeights
  thresholds : ScoringThresholds
  chunkLimits : ChunkLimits
deriving Repr, DecidableEq

def RELEVANCE_CONFIG : RelevanceConfig :=
  { weights :=
      { relevance := 5 / 10, quality := 3 / 10,
        diversity := 1 / 10, position := 1 / 10 }
    thresholds :=
      { minimumRelevance := 4 / 10, minimumQuality := 3 / 10,
        minimumFinalScore := 5 / 10 }
    chunkLimits := { simple := 3, moderate := 4, complex := 5 } }

/-- The per-complexity chunk cap. -/
def chunkLimitFor : QueryComplexity → Nat
  | .simple => RELEVANCE_CONFIG.chunkLimits.simple
  | .moderate => RELEVANCE_CONFIG.chunkLimits.moderate
  | .complex => RELEVANCE_CONFIG.chunkLimits.complex

/-- The substring alternatives of each query-type regex, tried in the
source's `Object.entries` order on the lowercased query. -/
def queryTypePatterns : List (QueryType × List String) :=
  [ (.definition, ["what is", "define", "meaning of", "explain", "definition"])
  , (.howTo, ["how to", "how do", "tutorial", "guide", "steps", "instructions"])
  , (.comparison, ["vs", "versus", "difference", "compare", "better", "best"])
  , (.technical, ["api", "code", "programming", "syntax", "implementation",
                  "library", "framework"])
  , (.conceptual, ["concept", "theory", "principle", "why", "when", "where",
                   "philosophy"]) ]

/-- `determineQueryType` from the source. -/
def determineQueryType (query : String) : QueryType :=
  let lowercaseQuery := jsToLower query
  match queryTypePatterns.find?
      (fun p => p.2.any (fun alt => jsContains lowercaseQuery alt)) with
  | some p => p.1
  | none => .general

/-- The stop-word list of `extractKeyTermsFromQuery`. -/
def queryStopWords : List String :=
  ["what", "is", "how", "to", "the", "a", "an", "and", "or", "but", "in",
   "on", "at", "for", "with", "by"]

/-- Is `c` kept by `replace(/[^\w\s]/g, ' ')` (i.e. in `\w` or `\s`)? -/
def isWordOrWs (c : Char) : Bool :=
  ('a' ≤ c && c ≤ 'z') || ('A' ≤ c && c ≤ 'Z') || ('0' ≤ c && c ≤ '9') ||
  c = '_' || isJsWs c

/-- Deduplicate preserving first occurrences (`[...new Set(words)]`). -/
def dedupFirst : List String → List String
  | [] => []
  | w :: rest => w :: (dedupFirst rest).filter (fun x => x ≠ w)

/-- `extractKeyTermsFromQuery` from the source. -/
def extractKeyTermsFromQuery (query : String) : List String :=
  let cleaned :=
    ((jsToLower query).toList.map (fun c => if isWordOrWs c then c else ' ')).asString
  let words := (jsSplitWs cleaned).filter
    (fun w => 2 < w.length && !queryStopWords.contains w)
  dedupFirst words

/-- The substring alternatives of each intent regex (all `/i`), in the
source's order. -/
def intentPatterns : List (QueryIntent × List String) :=
  [ (.learn, ["learn", "understand", "know", "explain", "what"])
  , (.solve, ["solve", "fix", "error", "problem", "issue", "debug"])
  , (.compare, ["compare", "vs", "versus", "difference", "better", "best"])
  , (.implement, ["implement", "build", "create", "make", "develop", "code"])
  , (.understand, ["why", "when", "where", "concept", "theory", "principle"]) ]

/-- `determineUserIntent` from the source (case-insensitive tests are
run on the lowercased query). -/
def determineUserIntent (query : String) : QueryIntent :=
  let q := jsToLower query
  match intentPatterns.find?
      (fun p => p.2.any (fun alt => jsContains q alt)) with
  | some p => p.1
  | none => .learn

/-- The `/advanced|complex|detailed|comprehensive/i` test. -/
def hasComplexWord (query : String) : Bool :=
  ["advanced", "complex", "detailed", "comprehensive"].any
    (fun w => jsContains (jsToLower query) w)

/-- `assessQueryComplexity` from the source. -/
def assessQueryComplexity (query : String) (keyTerms : List String) :
    QueryComplexity :=
  if query.length < 30 && keyTerms.length ≤ 2 then .simple
  else if 80 < query.length || 5 < keyTerms.length || hasComplexWord query then
    .complex
  else .moderate

/-- `analyzeSearchQuery` from the source. -/
def analyzeSearchQuery (query : String) : QueryAnalysis :=
  let keyTerms := extractKeyTermsFromQuery query
  { type := determineQueryType query
    keyTerms := keyTerms
    intent := determineUserIntent query
    complexity := assessQueryComplexity query keyTerms }

/-- `validateAndNormalizeScores` from the source: clamp each score via
`Math.max(0, Math.min(1, score || 0))` and coerce `reasons`/`keyMatches`
to arrays.  A count mismatch is only warned about, never repaired. -/
def validateAndNormalizeScores (scores : List RawScore) (expectedCount : Nat) :
    List NormScore :=
  scores.map (fun score =>
    { chunkIndex := score.chunkIndex
      relevanceScore :=
        jsMaxN (some 0) (jsMinN (some 1) (jsToNumber (jsOrZero score.relevanceScore)))
      qualityScore :=
        jsMaxN (some 0) (jsMinN (some 1) (jsToNumber (jsOrZero score.qualityScore)))
      reasons := score.reasons.getD []
      keyMatches := score.keyMatches.getD [] })

/-- Worker for `createFallbackScores` (`chunkIndex` is `index + 1`). -/
def fallbackGo (i : Nat) : List TextChunk → List NormScore
  | [] => []
  | _ :: rest =>
    { chunkIndex := .num (i + 1)
      relevanceScore := some (5 / 10)
      qualityScore := some (5 / 10)
      reasons := ["Fallback scoring - Claude API unavailable"]
      keyMatches := [] } :: fallbackGo (i + 1) rest

/-- `createFallbackScores` from the source: neutral `0.5`/`0.5` for
every chunk. -/
def createFallbackScores (chunks : List TextChunk) : List NormScore :=
  fallbackGo 0 chunks

/-- The outcome of the `claude.invoke` + `parseScoringResponse` pair:
either a parsed list of raw score entries, or any thrown error (network
failure or unparseable response). -/
abbrev ScoringResponse := Except Unit (List RawScore)

/-- `batchScoreChunksWithClaude` from the source: every chunk goes into
one single prompt and one single model call; a throw anywhere in the
`try` is replaced by the fallback scores. -/
def batchScoreChunksWithClaude (chunks : List TextChunk) (query : String)
    (queryAnalysis : QueryAnalysis) (response : ScoringResponse) :
    List NormScore :=
  match response with
  | .ok scores => validateAndNormalizeScores scores chunks.length
  | .error _ => createFallbackScores chunks

/-- `scoreChunksForRelevance` from the source (empty input short-circuits
before any model call). -/
def scoreChunksForRelevance (chunks : List TextChunk) (query : String)
    (queryAnalysis : QueryAnalysis) (response : ScoringResponse) :
    List NormScore :=
  if chunks.isEmpty then []
  else batchScoreChunksWithClaude chunks query queryAnalysis response

/-- How `scoreChunksForRelevance`/`batchScoreChunksWithClaude` group the
chunks into scoring requests: the whole list is sent as one request
(there is no splitting into batches anywhere on this path). -/
def scoringRequestBatches (chunks : List TextChunk) : List (List TextChunk) :=
  if chunks.isEmpty then [] else [chunks]

/-- The default score entry `combineChunksWithScores` substitutes when
the response has no entry with `chunkIndex === index + 1`. -/
def noScoreDefault (i : Nat) : NormScore :=
  { chunkIndex := .num (i + 1)
    relevanceScore := some (3 / 10)
    qualityScore := some (3 / 10)
    reasons := ["No score available"]
    keyMatches := [] }

/-- `s.chunkIndex === index + 1` (strict equality against a number). -/
def chunkIndexMatches (s : NormScore) (i : Nat) : Bool :=
  match s.chunkIndex with
  | .num q => q = (i + 1 : Nat)
  | _ => false

/-- Worker for `combineChunksWithScores`. -/
def combineGo (scores : List NormScore) (i : Nat) :
    List TextChunk → List (TextChunk × NormScore)
  | [] => []
  | c :: rest =>
    (c, (scores.find? (fun s => chunkIndexMatches s i)).getD (noScoreDefault i)) ::
      combineGo scores (i + 1) rest

/-- `combineChunksWithScores` from the source. -/
def combineChunksWithScores (chunks : List TextChunk) (scores : List NormScore) :
    List (TextChunk × NormScore) :=
  combineGo scores 0 chunks

/-- `calculateSourceDiversityScore` from the source. -/
def calculateSourceDiversityScore (chunk : TextChunk)
    (allChunks : List (TextChunk × NormScore)) : ℚ :=
  let sameSourceCount :=
    (allChunks.filter (fun item => item.1.source.url = chunk.source.url)).length
  max (3 / 10) (1 - ((sameSourceCount : ℚ) - 1) * (2 / 10))

/-- `calculatePositionScore` from the source. -/
def calculatePositionScore (chunk : TextChunk) : ℚ :=
  max (3 / 10) (1 - ((chunk.metadata.position : ℚ) - 1) * (1 / 10))

/-- `calculateWeightedFinalScore` from the source (the weighted sum, then
`Math.min(1.0, Math.max(0.0, ·))`). -/
def calculateWeightedFinalScore (relevanceScore qualityScore : JSNum)
    (diversityScore positionScore : ℚ) : JSNum :=
  let w := RELEVANCE_CONFIG.weights
  jsMinN (some 1) (jsMaxN (some 0)
    (jsAdd
      (jsAdd (jsMul relevanceScore (some w.relevance))
        (jsMul qualityScore (some w.quality)))
      (jsAdd (some (diversityScore * w.diversity))
        (some (positionScore * w.position)))))

/-- `calculateFinalScoresForChunks` from the source (rank still 0). -/
def calculateFinalScoresForChunks
    (chunksWithScores : List (TextChunk × NormScore)) : List RankedChunk :=
  chunksWithScores.map (fun p =>
    let diversityScore := calculateSourceDiversityScore p.1 chunksWithScores
    let positionScore := calculatePositionScore p.1
    { chunk := p.1
      relevanceScore := p.2.relevanceScore
      qualityScore := p.2.qualityScore
      diversityScore := diversityScore
      positionScore := positionScore
      finalScore := calculateWeightedFinalScore p.2.relevanceScore
        p.2.qualityScore diversityScore positionScore
      reasons := p.2.reasons
      keyMatches := p.2.keyMatches
      rank := 0 })

/-- The three ANDed threshold tests of `applyQualityFiltering`. -/
def passesThresholds (c : RankedChunk) : Bool :=
  jsGe c.relevanceScore (some RELEVANCE_CONFIG.thresholds.minimumRelevance) &&
  jsGe c.qualityScore (some RELEVANCE_CONFIG.thresholds.minimumQuality) &&
  jsGe c.finalScore (some RELEVANCE_CONFIG.thresholds.minimumFinalScore)

/-- `applyQualityFiltering` from the source. -/
def applyQualityFiltering (rankedChunks : List RankedChunk) : List RankedChunk :=
  rankedChunks.filter passesThresholds

/-- Stable insertion of `c` into a descending-by-`finalScore` list: `c`
goes after every element not below it, exactly as the stable
`sort((a, b) => b.finalScore - a.finalScore)` places it. -/
def insertDesc (c : RankedChunk) : List RankedChunk → List RankedChunk
  | [] => [c]
  | d :: rest =>
    if jsLt d.finalScore c.finalScore then c :: d :: rest
    else d :: insertDesc c rest

/-- The stable descending sort of `applySortingAndRanking` (insertion
formulation; stability and the comparator make it extensionally the
JavaScript sort). -/
def sortByFinalDesc (l : List RankedChunk) : List RankedChunk :=
  l.foldl (fun acc c => insertDesc c acc) []

/-- The rank-assignment map of `applySortingAndRanking`
(`rank = index + 1`, starting from `n`). -/
def assignRanksFrom (n : Nat) : List RankedChunk → List RankedChunk
  | [] => []
  | c :: rest => { c with rank := n } :: assignRanksFrom (n + 1) rest

/-- `applySortingAndRanking` from the source. -/
def applySortingAndRanking (chunks : List RankedChunk) : List RankedChunk :=
  assignRanksFrom 1 (sortByFinalDesc chunks)

/-- `applyChunkLimiting` from the source. -/
def applyChunkLimiting (rankedChunks : List RankedChunk)
    (complexity : QueryComplexity) : List RankedChunk :=
  rankedChunks.take (chunkLimitFor complexity)

/-- `filterAndRankChunks` from the source. -/
def filterAndRankChunks (chunks : List TextChunk) (scores : List NormScore)
    (queryAnalysis : QueryAnalysis) : List RankedChunk :=
  let chunksWithScores := combineChunksWithScores chunks scores
  let rankedChunks := calculateFinalScoresForChunks chunksWithScores
  let filteredChunks := applyQualityFiltering rankedChunks
  let finalRanking := applySortingAndRanking filteredChunks
  applyChunkLimiting finalRanking queryAnalysis.complexity

/-- `scoreAndFilterChunks` from the source, parameterized by the outcome
of the external scoring call.  The `try` around the model call means a
scoring failure never escapes this function; the embedding is
correspondingly total. -/
def scoreAndFilterChunks (chunks : List TextChunk) (query : String)
    (response : ScoringResponse) : RelevanceScoringResult :=
  let queryAnalysis := analyzeSearchQuery query
  let relevanceScores := scoreChunksForRelevance chunks query queryAnalysis response
  let rankedChunks := filterAndRankChunks chunks relevanceScores queryAnalysis
  let averageRelevance :=
    if 0 < rankedChunks.length then
      jsDiv ((rankedChunks.map (fun c => c.relevanceScore)).foldl jsAdd (some 0))
        (some (rankedChunks.length : ℚ))
    else some 0
  { rankedChunks := rankedChunks
    filtering :=
      { totalChunks := chunks.length
        filteredChunks := rankedChunks.length
        averageRelevance := averageRelevance
        filteringStrategy := "semantic_relevance_with_quality_filtering"
        processingTime := 0 }
    queryAnalysis := queryAnalysis }

end RelevanceScorer

/-! ## Web scraper (`web-scraper.ts`)

The per-URL browser I/O (navigation, title and content extraction,
timeouts) is abstracted as an oracle `ScrapeEnv`: for each URL index it
yields either the extracted title and raw text, or the error message of
whatever was thrown (navigation failure, the 15-second race timeout,
a page-provisioning error).  What remains — result construction,
per-URL isolation, ordering — is the code under verification. -/

namespace WebScraper

/-- `ScrapedContent` from `content-processor/types` (metadata inlined;
`scrapingTime` modelled as 0). -/
structure ScrapedContent where
  url : String
  title : String
  content : String
  wordCount : Nat
  scrapingTime : Nat
  success : Bool
  error : Option String
deriving Repr, DecidableEq

/-- `cleanContent` from the source: collapse all whitespace runs to one
space (after which the `/\n+/` pass finds nothing), then trim. -/
def cleanContent (rawContent : String) : String :=
  jsTrim ((collapseRuns rawContent.toList)).asString
where
  /-- `replace(/\s+/g, ' ')`. -/
  collapseRuns : List Char → List Char :=
    fun l => go false l
  go : Bool → List Char → List Char
    | _, [] => []
    | inRun, c :: rest =>
      if isJsWs c then
        if inRun then go true rest else ' ' :: go true rest
      else c :: go false rest

/-- `calculateWordCount` from the source: split on whitespace and count
the non-empty fragments. -/
def calculateWordCount (content : String) : Nat :=
  ((jsSplitWs content).filter (fun w => 0 < w.length)).length

/-- `createSuccessResult` from the source. -/
def createSuccessResult (url title content : String) (scrapingTime : Nat) :
    ScrapedContent :=
  { url := url
    title := title
    content := content
    wordCount := calculateWordCount content
    scrapingTime := scrapingTime
    success := true
    error := none }

/-- `createErrorResult` from the source (the oracle hands over the
extracted message directly). -/
def createErrorResult (url : String) (errorMsg : String) (scrapingTime : Nat) :
    ScrapedContent :=
  { url := url
    title := ""
    content := ""
    wordCount := 0
    scrapingTime := scrapingTime
    success := false
    error := some errorMsg }

/-- The oracle's verdict for one URL. -/
inductive ScrapeOutcome where
  | ok (title rawContent : String)
  | err (msg : String)
deriving Repr, DecidableEq

/-- The scraping environment: whether single-browser initialization
throws (forcing the legacy browser-pool path), and the per-index page
outcome. -/
structure ScrapeEnv where
  initFails : Bool
  outcome : Nat → ScrapeOutcome

/-- One URL's result: `scrapeWithPreCreatedPage`/`scrapeUrl` catch any
throw and substitute `createErrorResult`, so both paths produce this. -/
def scrapeResultFor (url : String) : ScrapeOutcome → ScrapedContent
  | .ok title rawContent => createSuccessResult url title (cleanContent rawContent) 0
  | .err msg => createErrorResult url msg 0

/-- The `urls.map((url, index) => ...)` + `Promise.all` skeleton shared
by both multi-URL paths: one result per URL, in index order. -/
def scrapeGo (env : ScrapeEnv) (i : Nat) : List String → List ScrapedContent
  | [] => []
  | url :: rest => scrapeResultFor url (env.outcome i) :: scrapeGo env (i + 1) rest

/-- `scrapeMultipleUrlsOptimized` from the source (single browser,
pre-created pages, parallel map with per-URL catch). -/
def scrapeMultipleUrlsOptimized (env : ScrapeEnv) (urls : List String) :
    List ScrapedContent :=
  scrapeGo env 0 urls

/-- `scrapeMultipleUrlsLegacy` from the source (browser pool, parallel
map with per-URL catch). -/
def scrapeMultipleUrlsLegacy (env : ScrapeEnv) (urls : List String) :
    List ScrapedContent :=
  scrapeGo env 0 urls

/-- `scrapeMultipleUrls` from the source: empty input short-circuits;
at most 5 URLs use the optimized path, falling back to the legacy pool
if single-browser initialization throws; more than 5 use the pool. -/
def scrapeMultipleUrls (env : ScrapeEnv) (urls : List String) :
    List ScrapedContent :=
  if urls.isEmpty then []
  else if urls.length ≤ 5 then
    if env.initFails then scrapeMultipleUrlsLegacy env urls
    else scrapeMultipleUrlsOptimized env urls
  else scrapeMultipleUrlsLegacy env urls

end WebScraper

/-! ## Concrete fixtures and derived predicates used by the theorems -/

open TextChunker RelevanceScorer WebScraper

/-- A chunk fixture: all from one source URL, distinguished by
`position` (scorer claims never read the content). -/
def sampleChunk (pos : Nat) : TextChunk :=
  { id := toString pos
    content := "c"
    metadata :=
      { position := pos, wordCount := 350, charCount := 1, startIndex := 0,
        endIndex := 350, hasOverlap := false,
        chunkingMethod := "word_boundary", sectionTitle := none }
    source := { url := "https://a.example", title := "A", originalIndex := 0 } }

/-- A well-formed response entry scoring chunk `i` at `0.9`/`0.9`. -/
def highRawScore (i : Nat) : RawScore :=
  { chunkIndex := .num i, relevanceScore := .num (9 / 10),
    qualityScore := .num (9 / 10), reasons := some [], keyMatches := some [] }

/-- A well-formed response entry scoring chunk `i` at `0.1`/`0.1`
(below every threshold). -/
def lowRawScore (i : Nat) : RawScore :=
  { chunkIndex := .num i, relevanceScore := .num (1 / 10),
    qualityScore := .num (1 / 10), reasons := some [], keyMatches := some [] }

/-- A response entry whose relevance is a truthy non-numeric string and
whose quality is the out-of-range number `2`. -/
def nonNumericRawScore : RawScore :=
  { chunkIndex := .num 1, relevanceScore := .str "very relevant",
    qualityScore := .num 2, reasons := none, keyMatches := none }

/-- A response entry with an out-of-range relevance (`5`) and an absent
quality field. -/
def outOfRangeRawScore : RawScore :=
  { chunkIndex := .num 1, relevanceScore := .num 5,
    qualityScore := .undef, reasons := none, keyMatches := none }

/-- The nine-chunk input for the batching claim. -/
def nineChunks : List TextChunk :=
  [sampleChunk 1, sampleChunk 2, sampleChunk 3, sampleChunk 4, sampleChunk 5,
   sampleChunk 6, sampleChunk 7, sampleChunk 8, sampleChunk 9]

/-- The one-word chunker input for the at-least-one-chunk claim. -/
def helloInput : TextChunkerInput :=
  { content := "hello", title := "t", url := "u", originalIndex := 0 }

/-- The scored-but-not-yet-filtered chunks of a `scoreAndFilterChunks`
run (the output of its step 3a+3b, before filtering). -/
def scoredChunksOf (chunks : List TextChunk) (query : String)
    (response : ScoringResponse) : List RankedChunk :=
  calculateFinalScoresForChunks (combineChunksWithScores chunks
    (scoreChunksForRelevance chunks query (analyzeSearchQuery query) response))

/-- A JavaScript number that is a real value in `[0, 1]` (what the spec's
clamp invariant asserts). -/
def inUnitInterval (x : JSNum) : Prop :=
  ∃ q, x = some q ∧ 0 ≤ q ∧ q ≤ 1

/-- Does `v || 0` coerce to an actual number (not `NaN`)?  Numbers,
booleans, `null`, missing fields and numeric strings do; truthy
non-numeric values do not. -/
def coercesToNumber (v : JSVal) : Bool :=
  (jsToNumber (jsOrZero v)).isSome

/-- An environment for the scraper claims: initialization succeeds, and
even-indexed URLs scrape fine while odd-indexed ones fail. -/
def sampleScrapeEnv : ScrapeEnv :=
  { initFails := false
    outcome := fun i =>
      if i % 2 = 0 then .ok "Title" "Body  text here" else .err "net::ERR" }

/-- A response entry both of whose score fields are falsy non-numbers
(`null` and a missing field). -/
def malformedRawScore : RawScore :=
  { chunkIndex := .num 1, relevanceScore := .nullv, qualityScore := .undef,
    reasons := none, keyMatches := none }

/-- Four same-source chunks for the capping counterexample. -/
def fourChunks : List TextChunk :=
  [sampleChunk 1, sampleChunk 2, sampleChunk 3, sampleChunk 4]

/-- A response scoring all four chunks at `0.9`/`0.9` (all pass every
threshold). -/
def fourHighResponse : ScoringResponse :=
  .ok [highRawScore 1, highRawScore 2, highRawScore 3, highRawScore 4]

/-- The chunk scored from `outOfRangeRawScore`: the out-of-range `5`
clamps to `1`, the missing quality to `0`, and the weighted final score
is `0.7`. -/
def unitWitnessScored : RankedChunk :=
  { chunk := sampleChunk 1
    relevanceScore := some 1
    qualityScore := some 0
    diversityScore := 1
    positionScore := 1
    finalScore := some (7 / 10)
    reasons := []
    keyMatches := []
    rank := 0 }

/-! ## Helper lemmas -/

theorem scrapeGo_get? (env : ScrapeEnv) :
    ∀ (urls : List String) (i j : Nat),
      (scrapeGo env i urls).get? j =
        (urls.get? j).map (fun u => scrapeResultFor u (env.outcome (i + j)))
  | [], i, j => by cases j <;> simp [scrapeGo]
  | u :: rest, i, 0 => by simp [scrapeGo]
  | u :: rest, i, j + 1 => by
    have := scrapeGo_get? env rest (i + 1) j
    simpa [scrapeGo, Nat.add_assoc, Nat.add_comm 1 j] using this

theorem scrapeGo_length (env : ScrapeEnv) :
    ∀ (urls : List String) (i : Nat), (scrapeGo env i urls).length = urls.length
  | [], _ => rfl
  | u :: rest, i => by simp [scrapeGo, scrapeGo_length env rest (i + 1)]

theorem scrapeMultipleUrls_eq_go (env : ScrapeEnv) (urls : List String) :
    scrapeMultipleUrls env urls = scrapeGo env 0 urls := by
  cases urls with
  | nil => simp [scrapeMultipleUrls, scrapeGo]
  | cons u rest =>
    simp only [scrapeMultipleUrls, scrapeMultipleUrlsLegacy,
      scrapeMultipleUrlsOptimized, List.isEmpty_cons, Bool.false_eq_true,
      if_false]
    split
    · split <;> rfl
    · rfl

theorem combineGo_get? (scores : List NormScore) :
    ∀ (chunks : List TextChunk) (i j : Nat),
      (combineGo scores i chunks).get? j =
        (chunks.get? j).map (fun c =>
          (c, (scores.find? (fun s => chunkIndexMatches s (i + j))).getD
            (noScoreDefault (i + j))))
  | [], i, j => by cases j <;> simp [combineGo]
  | c :: rest, i, 0 => by simp [combineGo]
  | c :: rest, i, j + 1 => by
    have := combineGo_get? scores rest (i + 1) j
    simpa [combineGo, Nat.add_assoc, Nat.add_comm 1 j] using this

theorem fallbackGo_mem :
    ∀ (chunks : List TextChunk) (i : Nat) (s : NormScore),
      s ∈ fallbackGo i chunks →
      s.relevanceScore = some (5 / 10) ∧ s.qualityScore = some (5 / 10) ∧
      s.reasons = ["Fallback scoring - Claude API unavailable"]
  | [], i, s, h => by simp [fallbackGo] at h
  | c :: rest, i, s, h => by
    rcases (by simpa [fallbackGo] using h) with h | h
    · subst h; exact ⟨rfl, rfl, rfl⟩
    · exact fallbackGo_mem rest (i + 1) s h

theorem scoreChunksForRelevance_error (chunks : List TextChunk) (query : String)
    (qa : QueryAnalysis) (e : Unit) :
    scoreChunksForRelevance chunks query qa (.error e) =
      createFallbackScores chunks := by
  cases chunks with
  | nil => rfl
  | cons c rest => rfl

/-! ## Claims -/

/-- C1: the spec requires `chunkText` to produce at least one chunk for
any non-empty input.  The code instead produces none: for the non-empty
input `"hello"` (indeed for any document of at most `targetChunkSize`
words) `findOptimalChunkBoundaries` breaks out of its loop without
pushing a final boundary, so no boundary pair exists and the returned
chunk list is empty. -/
theorem chunkText_hello_returns_no_chunks :
    (chunkText helloInput).chunks = [] ∧ helloInput.content ≠ "" := by decide

/-- C9: the spec (and the repository's own optimization notes) say chunk
scoring is batched at most 8 chunks per request; the code sends the
whole chunk list as one single request, here 9 chunks in one batch. -/
theorem single_request_contains_all_chunks :
    scoringRequestBatches nineChunks = [nineChunks] ∧
    nineChunks.length = 9 ∧
    ∃ b ∈ scoringRequestBatches nineChunks, 8 < b.length := by decide

/-- C10: `scrapeMultipleUrls` returns exactly one result per input URL
in input order — the result at index `i` carries `urls[i]` as its `url`
field — and a per-URL failure shows up in place as a `success = false`
record (with the error message) rather than being dropped. -/
theorem scrape_results_align_with_urls (env : ScrapeEnv) (urls : List String) :
    (scrapeMultipleUrls env urls).length = urls.length ∧
    (∀ i : Nat, (scrapeMultipleUrls env urls).get? i =
      (urls.get? i).map (fun u => scrapeResultFor u (env.outcome i))) ∧
    (∀ url msg, (scrapeResultFor url (.err msg)).success = false ∧
      (scrapeResultFor url (.err msg)).url = url ∧
      (scrapeResultFor url (.err msg)).error = some msg) ∧
    (∀ url t r, (scrapeResultFor url (.ok t r)).success = true ∧
      (scrapeResultFor url (.ok t r)).url = url) := by
  refine ⟨?_, ?_, ?_, ?_⟩
  · rw [scrapeMultipleUrls_eq_go]; exact scrapeGo_length env urls 0
  · intro i
    rw [scrapeMultipleUrls_eq_go]
    simpa using scrapeGo_get? env urls 0 i
  · intro url msg; exact ⟨rfl, rfl, rfl⟩
  · intro url t r; exact ⟨rfl, rfl⟩

/-- C7: when the external scoring call fails entirely, the failure is
not propagated: every chunk gets the neutral fallback score
`0.5`/`0.5` with the fallback reason string, and filtering and ranking
run over those fallback scores exactly as they would over real ones. -/
theorem scoring_failure_degrades_to_fallback (chunks : List TextChunk)
    (query : String) :
    (scoreAndFilterChunks chunks query (.error ())).rankedChunks =
      filterAndRankChunks chunks (createFallbackScores chunks)
        (analyzeSearchQuery query) ∧
    (∀ s ∈ createFallbackScores chunks,
      s.relevanceScore = some (5 / 10) ∧ s.qualityScore = some (5 / 10) ∧
      s.reasons = ["Fallback scoring - Claude API unavailable"]) := by
  constructor
  · show filterAndRankChunks chunks
      (scoreChunksForRelevance chunks query (analyzeSearchQuery query) (.error ()))
      (analyzeSearchQuery query) = _
    rw [scoreChunksForRelevance_error]
  · exact fun s h => fallbackGo_mem chunks 0 s h

/-- C8: if no scored chunk clears the three filter thresholds,
`scoreAndFilterChunks` still returns normally, with an empty
`rankedChunks`, `filtering.filteredChunks = 0` and `averageRelevance`
reported as `0`. -/
theorem no_passing_chunks_empty_result (chunks : List TextChunk)
    (query : String) (response : ScoringResponse)
    (h : ∀ c ∈ scoredChunksOf chunks query response,
      passesThresholds c = false) :
    (scoreAndFilterChunks chunks query response).rankedChunks = [] ∧
    (scoreAndFilterChunks chunks query response).filtering.filteredChunks = 0 ∧
    (scoreAndFilterChunks chunks query response).filtering.averageRelevance =
      some 0 := by
  have hfil : applyQualityFiltering (scoredChunksOf chunks query response) = [] := by
    simp only [applyQualityFiltering, List.filter_eq_nil_iff]
    intro a ha
    simp [h a ha]
  have hr : (scoreAndFilterChunks chunks query response).rankedChunks = [] := by
    show applyChunkLimiting (applySortingAndRanking
      (applyQualityFiltering (scoredChunksOf chunks query response)))
      (analyzeSearchQuery query).complexity = []
    rw [hfil]
    simp [applySortingAndRanking, sortByFinalDesc, assignRanksFrom,
      applyChunkLimiting]
  refine ⟨hr, ?_, ?_⟩
  · show (scoreAndFilterChunks chunks query response).rankedChunks.length = 0
    rw [hr]; rfl
  · show (if 0 < (scoreAndFilterChunks chunks query response).rankedChunks.length
      then _ else some 0) = some 0
    rw [hr]; rfl

/-- C8 witness: one chunk scored `0.1`/`0.1` fails every threshold and
yields the empty, non-error result. -/
theorem no_passing_chunks_empty_result_witness :
    (scoreAndFilterChunks [sampleChunk 1] "irrelevant"
      (.ok [lowRawScore 1])).rankedChunks = [] ∧
    (scoreAndFilterChunks [sampleChunk 1] "irrelevant"
      (.ok [lowRawScore 1])).filtering.filteredChunks = 0 ∧
    (scoreAndFilterChunks [sampleChunk 1] "irrelevant"
      (.ok [lowRawScore 1])).filtering.averageRelevance = some 0 :=
  no_passing_chunks_empty_result [sampleChunk 1] "irrelevant"
    (.ok [lowRawScore 1]) (by decide)

/-- C6 counterexample: the claim says a missing or malformed response
entry defaults the chunk's scores to the neutral `0.5`.  In the code a
chunk whose entry is missing gets `0.3`/`0.3` (reason `"No score
available"`), and an entry whose score fields are falsy is clamped to
`0`; neither is `0.5`. -/
theorem missing_entry_defaults_to_neutral_cex :
    ((combineChunksWithScores [sampleChunk 1] []).map
      (fun p => (p.2.relevanceScore, p.2.qualityScore, p.2.reasons)) =
      [(some (3 / 10), some (3 / 10), ["No score available"])]) ∧
    ((validateAndNormalizeScores [malformedRawScore] 1).map
      (fun s => (s.relevanceScore, s.qualityScore)) = [(some 0, some 0)]) ∧
    (some (3 / 10) : JSNum) ≠ some (5 / 10) ∧
    (some (0 : ℚ) : JSNum) ≠ some (5 / 10) := by decide

/-- C6 as amended: a chunk whose index has no matching response entry is
paired with the `0.3`/`0.3` default (reason `"No score available"`); a
present entry whose score fields are falsy non-numbers normalizes to
`0`; the neutral `0.5`/`0.5` appears only in the whole-call fallback
scores. -/
theorem missing_entry_default_and_clamp
    (chunks : List TextChunk) (scores : List NormScore) (j : Nat)
    (raws : List RawScore) (n k : Nat) (raw : RawScore)
    (hfind : scores.find? (fun s => chunkIndexMatches s j) = none)
    (hraw : raws.get? k = some raw)
    (hfalsy : jsTruthy raw.relevanceScore = false ∧
      jsTruthy raw.qualityScore = false) :
    (combineChunksWithScores chunks scores).get? j =
      (chunks.get? j).map (fun c => (c, noScoreDefault j)) ∧
    (noScoreDefault j).relevanceScore = some (3 / 10) ∧
    (noScoreDefault j).qualityScore = some (3 / 10) ∧
    (noScoreDefault j).reasons = ["No score available"] ∧
    ((validateAndNormalizeScores raws n).get? k).map
      (fun s => (s.relevanceScore, s.qualityScore)) = some (some 0, some 0) ∧
    (∀ s ∈ createFallbackScores chunks,
      s.relevanceScore = some (5 / 10) ∧ s.qualityScore = some (5 / 10)) := by
  refine ⟨?_, rfl, rfl, rfl, ?_, ?_⟩
  · have := combineGo_get? scores chunks 0 j
    simpa [combineChunksWithScores, hfind] using this
  · simp only [validateAndNormalizeScores, List.get?_map, hraw, Option.map_some]
    simp [jsOrZero, hfalsy.1, hfalsy.2, jsToNumber, jsMinN, jsMaxN]
  · exact fun s h => ⟨(fallbackGo_mem chunks 0 s h).1, (fallbackGo_mem chunks 0 s h).2.1⟩

/-- C6 amended witness: one chunk with an empty response list, and a
malformed entry with `null`/missing score fields. -/
theorem missing_entry_default_and_clamp_witness :
    ((combineChunksWithScores [sampleChunk 1] []).get? 0 =
      (([sampleChunk 1] : List TextChunk).get? 0).map
        (fun c => (c, noScoreDefault 0))) ∧
    (noScoreDefault 0).relevanceScore = some (3 / 10) ∧
    (noScoreDefault 0).qualityScore = some (3 / 10) ∧
    (noScoreDefault 0).reasons = ["No score available"] ∧
    ((validateAndNormalizeScores [malformedRawScore] 1).get? 0).map
      (fun s => (s.relevanceScore, s.qualityScore)) = some (some 0, some 0) ∧
    (∀ s ∈ createFallbackScores [sampleChunk 1],
      s.relevanceScore = some (5 / 10) ∧ s.qualityScore = some (5 / 10)) :=
  missing_entry_default_and_clamp [sampleChunk 1] [] 0 [malformedRawScore] 1 0
    malformedRawScore rfl rfl (by decide)

theorem jsGe_of_jsLt {x y : JSNum} (h : jsLt x y = true) : jsGe y x = true := by
  cases x <;> cases y <;> simp_all [jsLt, jsGe]
  exact le_of_lt h

theorem jsGe_of_not_jsLt {x y : JSNum} (hx : x.isSome) (hy : y.isSome)
    (h : jsLt x y = false) : jsGe x y = true := by
  cases x <;> cases y <;> simp_all [jsLt, jsGe]

theorem jsGe_trans {x y z : JSNum} (h1 : jsGe x y = true)
    (h2 : jsGe y z = true) : jsGe x z = true := by
  cases x <;> cases y <;> cases z <;> simp_all [jsGe]
  exact le_trans h2 h1

theorem isSome_of_jsGe_left {x y : JSNum} (h : jsGe x y = true) : x.isSome := by
  cases x <;> simp_all [jsGe]

theorem mem_insertDesc (c x : RankedChunk) :
    ∀ l : List RankedChunk, x ∈ insertDesc c l ↔ x = c ∨ x ∈ l
  | [] => by simp [insertDesc]
  | d :: rest => by
    by_cases h : jsLt d.finalScore c.finalScore = true
    · simp [insertDesc, h]
    · simp only [insertDesc, if_neg h, List.mem_cons, mem_insertDesc c x rest]
      tauto

theorem mem_sortByFinalDesc_aux (x : RankedChunk) :
    ∀ (l acc : List RankedChunk),
      x ∈ l.foldl (fun a c => insertDesc c a) acc → x ∈ acc ∨ x ∈ l
  | [], acc, h => by simpa using h
  | c :: rest, acc, h => by
    rcases mem_sortByFinalDesc_aux x rest (insertDesc c acc) h with h' | h'
    · rcases (mem_insertDesc c x acc).mp h' with h'' | h''
      · exact Or.inr (by simp [h''])
      · exact Or.inl h''
    · exact Or.inr (List.mem_cons_of_mem c h')

theorem mem_sortByFinalDesc {x : RankedChunk} {l : List RankedChunk}
    (h : x ∈ sortByFinalDesc l) : x ∈ l := by
  rcases mem_sortByFinalDesc_aux x l [] h with h' | h'
  · simp at h'
  · exact h'

/-- The descending-by-`finalScore` relation the sort establishes. -/
def finalDesc (a b : RankedChunk) : Prop :=
  jsGe a.finalScore b.finalScore = true

theorem pairwise_insertDesc (c : RankedChunk) (hc : c.finalScore.isSome) :
    ∀ acc : List RankedChunk, (∀ x ∈ acc, x.finalScore.isSome) →
      acc.Pairwise finalDesc → (insertDesc c acc).Pairwise finalDesc
  | [], _, _ => by simp [insertDesc, List.pairwise_singleton]
  | d :: rest, hacc, hp => by
    by_cases h : jsLt d.finalScore c.finalScore = true
    · rw [insertDesc, if_pos h]
      refine List.Pairwise.cons ?_ hp
      intro y hy
      rcases List.mem_cons.mp hy with rfl | hy'
      · exact jsGe_of_jsLt h
      · exact jsGe_trans (jsGe_of_jsLt h) (List.rel_of_pairwise_cons hp hy')
    · rw [insertDesc, if_neg h]
      refine List.Pairwise.cons ?_ ?_
      · intro y hy
        rcases (mem_insertDesc c y rest).mp hy with rfl | hy'
        · exact jsGe_of_not_jsLt (hacc d (by simp)) hc (by simpa using h)
        · exact List.rel_of_pairwise_cons hp hy'
      · exact pairwise_insertDesc c hc rest
          (fun x hx => hacc x (List.mem_cons_of_mem d hx)) hp.of_cons

theorem pairwise_sort_aux :
    ∀ (l acc : List RankedChunk), (∀ x ∈ l, x.finalScore.isSome) →
      (∀ x ∈ acc, x.finalScore.isSome) → acc.Pairwise finalDesc →
      (l.foldl (fun a c => insertDesc c a) acc).Pairwise finalDesc
  | [], acc, _, _, hp => hp
  | c :: rest, acc, hl, hacc, hp => by
    refine pairwise_sort_aux rest (insertDesc c acc)
      (fun x hx => hl x (List.mem_cons_of_mem c hx)) ?_ ?_
    · intro x hx
      rcases (mem_insertDesc c x acc).mp hx with h' | hx'
      · rw [h']; exact hl c (by simp)
      · exact hacc x hx'
    · exact pairwise_insertDesc c (hl c (by simp)) acc hacc hp

theorem pairwise_sortByFinalDesc {l : List RankedChunk}
    (h : ∀ x ∈ l, x.finalScore.isSome) :
    (sortByFinalDesc l).Pairwise finalDesc :=
  pairwise_sort_aux l [] h (by simp) (by simp)

theorem mem_assignRanksFrom {x : RankedChunk} :
    ∀ (l : List RankedChunk) (n : Nat), x ∈ assignRanksFrom n l →
      ∃ y ∈ l, x.relevanceScore = y.relevanceScore ∧
        x.qualityScore = y.qualityScore ∧ x.finalScore = y.finalScore ∧
        x.chunk = y.chunk
  | [], n, h => by simp [assignRanksFrom] at h
  | c :: rest, n, h => by
    rcases List.mem_cons.mp h with rfl | h'
    · exact ⟨c, by simp, rfl, rfl, rfl, rfl⟩
    · rcases mem_assignRanksFrom rest (n + 1) h' with ⟨y, hy, hs⟩
      exact ⟨y, List.mem_cons_of_mem c hy, hs⟩

theorem pairwise_assignRanksFrom :
    ∀ (l : List RankedChunk) (n : Nat), l.Pairwise finalDesc →
      (assignRanksFrom n l).Pairwise finalDesc
  | [], _, _ => List.Pairwise.nil
  | c :: rest, n, hp => by
    refine List.Pairwise.cons ?_ (pairwise_assignRanksFrom rest (n + 1) hp.of_cons)
    intro y hy
    rcases mem_assignRanksFrom rest (n + 1) hy with ⟨z, hz, -, -, hfz, -⟩
    show jsGe ({ c with rank := n } : RankedChunk).finalScore y.finalScore = true
    rw [show ({ c with rank := n } : RankedChunk).finalScore = c.finalScore from rfl,
      hfz]
    exact List.rel_of_pairwise_cons hp hz

theorem assignRanksFrom_take :
    ∀ (l : List RankedChunk) (n k : Nat),
      (assignRanksFrom n l).take k = assignRanksFrom n (l.take k)
  | [], n, k => by simp [assignRanksFrom]
  | c :: rest, n, 0 => by simp [assignRanksFrom]
  | c :: rest, n, k + 1 => by
    simp [assignRanksFrom, assignRanksFrom_take rest (n + 1) k]

theorem map_rank_assignRanksFrom :
    ∀ (l : List RankedChunk) (n : Nat),
      (assignRanksFrom n l).map (fun c => c.rank) = List.range' n l.length
  | [], n => rfl
  | c :: rest, n => by
    show n :: (assignRanksFrom (n + 1) rest).map (fun c => c.rank) = _
    rw [map_rank_assignRanksFrom rest (n + 1)]
    rfl

theorem length_assignRanksFrom :
    ∀ (l : List RankedChunk) (n : Nat), (assignRanksFrom n l).length = l.length
  | [], _ => rfl
  | c :: rest, n => by simp [assignRanksFrom, length_assignRanksFrom rest (n + 1)]

theorem mem_applyQualityFiltering {c : RankedChunk} {l : List RankedChunk}
    (h : c ∈ applyQualityFiltering l) :
    c ∈ l ∧ passesThresholds c = true :=
  ⟨List.mem_of_mem_filter h, List.of_mem_filter h⟩

theorem finalScore_isSome_of_passes {c : RankedChunk}
    (h : passesThresholds c = true) : c.finalScore.isSome := by
  have := (Bool.and_eq_true _ _ |>.mp h).2
  exact isSome_of_jsGe_left this

/-- C3: the returned chunk list is sorted descending by `finalScore`,
its `rank` fields are exactly `1..N`, and `N` never exceeds the
complexity-dependent cap (3 for simple, 4 for moderate, 5 for complex
queries). -/
theorem ranked_chunks_sorted_dense_capped (chunks : List TextChunk)
    (query : String) (response : ScoringResponse) :
    (scoreAndFilterChunks chunks query response).rankedChunks.Pairwise finalDesc ∧
    ((scoreAndFilterChunks chunks query response).rankedChunks.map
      (fun c => c.rank) =
      List.range' 1 (scoreAndFilterChunks chunks query response).rankedChunks.length) ∧
    ((scoreAndFilterChunks chunks query response).rankedChunks.length ≤
      chunkLimitFor (analyzeSearchQuery query).complexity) ∧
    chunkLimitFor .simple = 3 ∧ chunkLimitFor .moderate = 4 ∧
    chunkLimitFor .complex = 5 := by
  have hkey : (scoreAndFilterChunks chunks query response).rankedChunks =
      (assignRanksFrom 1 (sortByFinalDesc
        (applyQualityFiltering (scoredChunksOf chunks query response)))).take
        (chunkLimitFor (analyzeSearchQuery query).complexity) := rfl
  have hsome : ∀ x ∈ applyQualityFiltering (scoredChunksOf chunks query response),
      x.finalScore.isSome :=
    fun x hx => finalScore_isSome_of_passes (mem_applyQualityFiltering hx).2
  refine ⟨?_, ?_, ?_, rfl, rfl, rfl⟩
  · rw [hkey]
    exact List.Pairwise.sublist (List.take_sublist _ _)
      (pairwise_assignRanksFrom _ 1 (pairwise_sortByFinalDesc hsome))
  · rw [hkey, assignRanksFrom_take, map_rank_assignRanksFrom,
      length_assignRanksFrom]
  · rw [hkey]
    exact le_trans (List.length_take_le _ _) (le_refl _)

/-- C2 as amended: every returned chunk clears all three thresholds, and
every scored chunk dropped by the *filtering stage* fails at least one
of them.  (A chunk that clears all thresholds can still be missing from
the returned list because of the complexity cap — see the
counterexample.) -/
theorem thresholds_hold_for_returned_chunks (chunks : List TextChunk)
    (query : String) (response : ScoringResponse) :
    (∀ c ∈ (scoreAndFilterChunks chunks query response).rankedChunks,
      jsGe c.relevanceScore (some (4 / 10)) = true ∧
      jsGe c.qualityScore (some (3 / 10)) = true ∧
      jsGe c.finalScore (some (5 / 10)) = true) ∧
    (∀ c ∈ scoredChunksOf chunks query response,
      c ∉ applyQualityFiltering (scoredChunksOf chunks query response) →
      passesThresholds c = false) := by
  have hkey : (scoreAndFilterChunks chunks query response).rankedChunks =
      (assignRanksFrom 1 (sortByFinalDesc
        (applyQualityFiltering (scoredChunksOf chunks query response)))).take
        (chunkLimitFor (analyzeSearchQuery query).complexity) := rfl
  constructor
  · intro c hc
    rw [hkey] at hc
    have hc' := List.mem_of_mem_take hc
    rcases mem_assignRanksFrom _ 1 hc' with ⟨y, hy, hrel, hqual, hfin, -⟩
    have hpass := (mem_applyQualityFiltering (mem_sortByFinalDesc hy)).2
    rw [passesThresholds] at hpass
    rcases Bool.and_eq_true _ _ |>.mp hpass with ⟨h12, h3⟩
    rcases Bool.and_eq_true _ _ |>.mp h12 with ⟨h1, h2⟩
    rw [hrel, hqual, hfin]
    exact ⟨h1, h2, h3⟩
  · intro c hc hnot
    cases h : passesThresholds c
    · rfl
    · exact absurd (List.mem_filter.mpr ⟨hc, h⟩) hnot

/-- C2 counterexample: four same-source chunks all scored `0.9`/`0.9`
against the simple query `"react hooks"` (cap 3).  One scored chunk
clears every threshold yet is excluded from the returned list — so
"every excluded chunk violates a threshold" is false as stated. -/
theorem capped_chunk_excluded_despite_passing :
    ∃ c ∈ scoredChunksOf fourChunks "react hooks" fourHighResponse,
      passesThresholds c = true ∧
      ∀ r ∈ (scoreAndFilterChunks fourChunks "react hooks"
        fourHighResponse).rankedChunks, r.chunk ≠ c.chunk := by decide

theorem clamp01_inUnit (v : JSVal) (h : coercesToNumber v = true) :
    inUnitInterval
      (jsMaxN (some 0) (jsMinN (some 1) (jsToNumber (jsOrZero v)))) := by
  rcases Option.isSome_iff_exists.mp h with ⟨q, hq⟩
  refine ⟨max 0 (min 1 q), ?_, le_max_left 0 _, ?_⟩
  · rw [hq]; rfl
  · exact max_le (by norm_num) (min_le_left 1 q)

theorem final_inUnit (r q : JSNum) (d p : ℚ) (hr : r.isSome) (hq : q.isSome) :
    inUnitInterval (calculateWeightedFinalScore r q d p) := by
  rcases Option.isSome_iff_exists.mp hr with ⟨a, ha⟩
  rcases Option.isSome_iff_exists.mp hq with ⟨b, hb⟩
  subst ha hb
  refine ⟨min 1 (max 0 (a * (5 / 10) + b * (3 / 10) +
    (d * (1 / 10) + p * (1 / 10)))), rfl, ?_, min_le_left _ _⟩
  exact le_min (by norm_num) (le_max_left 0 _)

theorem mem_combineGo {x : TextChunk × NormScore} :
    ∀ (chunks : List TextChunk) (scores : List NormScore) (i : Nat),
      x ∈ combineGo scores i chunks →
      x.2 ∈ scores ∨ ∃ j, x.2 = noScoreDefault j
  | [], scores, i, h => by simp [combineGo] at h
  | c :: rest, scores, i, h => by
    rcases List.mem_cons.mp h with h' | h'
    · cases hf : scores.find? (fun s => chunkIndexMatches s i) with
      | some s =>
        left
        have : x.2 = s := by rw [h', hf]; rfl
        rw [this]
        exact List.mem_of_find?_eq_some hf
      | none =>
        right
        exact ⟨i, by rw [h', hf]; rfl⟩
    · exact mem_combineGo rest scores (i + 1) h'

theorem mem_validateAndNormalizeScores {t : NormScore} {raws : List RawScore}
    {n : Nat} (h : t ∈ validateAndNormalizeScores raws n) :
    ∃ raw ∈ raws,
      t.relevanceScore =
        jsMaxN (some 0) (jsMinN (some 1) (jsToNumber (jsOrZero raw.relevanceScore))) ∧
      t.qualityScore =
        jsMaxN (some 0) (jsMinN (some 1) (jsToNumber (jsOrZero raw.qualityScore))) := by
  rcases List.mem_map.mp h with ⟨raw, hraw, ht⟩
  exact ⟨raw, hraw, by rw [← ht], by rw [← ht]⟩

/-- C4 counterexample: a response entry whose relevance is the truthy
non-numeric string `"very relevant"` survives `score || 0` untouched,
coerces to `NaN` inside `Math.min`, and the clamp passes the `NaN`
through — the scored chunk carries `NaN` relevance and `NaN` final
score, which are not in `[0, 1]`. -/
theorem nonnumeric_score_breaks_clamp :
    ((calculateFinalScoresForChunks (combineChunksWithScores [sampleChunk 1]
        (validateAndNormalizeScores [nonNumericRawScore] 1))).map
      (fun rc => (rc.relevanceScore, rc.finalScore)) = [(none, none)]) ∧
    ¬ inUnitInterval (none : JSNum) := by
  constructor
  · decide
  · rintro ⟨q, hq, -⟩
    exact Option.noConfusion hq

/-- C4 as amended: whenever every score field of the response coerces to
an actual number under `x || 0` (any real number, any range; missing,
`null` and boolean fields included), all three scores attached to every
scored chunk lie in `[0, 1]`.  A truthy non-numeric field instead
propagates `NaN` (see the counterexample). -/
theorem scores_clamped_to_unit_interval (chunks : List TextChunk)
    (raws : List RawScore) (rc : RankedChunk)
    (hraws : ∀ s ∈ raws, coercesToNumber s.relevanceScore = true ∧
      coercesToNumber s.qualityScore = true)
    (hrc : rc ∈ calculateFinalScoresForChunks (combineChunksWithScores chunks
      (validateAndNormalizeScores raws chunks.length))) :
    inUnitInterval rc.relevanceScore ∧ inUnitInterval rc.qualityScore ∧
      inUnitInterval rc.finalScore := by
  rcases List.mem_map.mp hrc with ⟨p, hp, hrc'⟩
  have hrel : rc.relevanceScore = p.2.relevanceScore := by rw [← hrc']
  have hqual : rc.qualityScore = p.2.qualityScore := by rw [← hrc']
  have hfin : rc.finalScore = calculateWeightedFinalScore p.2.relevanceScore
      p.2.qualityScore (calculateSourceDiversityScore p.1 (combineChunksWithScores
        chunks (validateAndNormalizeScores raws chunks.length)))
      (calculatePositionScore p.1) := by rw [← hrc']
  have hscored : inUnitInterval p.2.relevanceScore ∧
      inUnitInterval p.2.qualityScore := by
    rcases mem_combineGo chunks _ 0 hp with h | ⟨j, hj⟩
    · rcases mem_validateAndNormalizeScores h with ⟨raw, hraw, h1, h2⟩
      rw [h1, h2]
      exact ⟨clamp01_inUnit _ (hraws raw hraw).1, clamp01_inUnit _ (hraws raw hraw).2⟩
    · rw [hj]
      exact ⟨⟨3 / 10, rfl, by norm_num, by norm_num⟩,
        ⟨3 / 10, rfl, by norm_num, by norm_num⟩⟩
  refine ⟨hrel ▸ hscored.1, hqual ▸ hscored.2, ?_⟩
  rw [hfin]
  rcases hscored.1 with ⟨a, ha, -⟩
  rcases hscored.2 with ⟨b, hb, -⟩
  exact final_inUnit _ _ _ _ (ha ▸ rfl) (hb ▸ rfl)

/-- C4 amended witness: one chunk scored by an entry with an
out-of-range relevance (`5`) and a missing quality field. -/
theorem scores_clamped_to_unit_interval_witness :
    inUnitInterval unitWitnessScored.relevanceScore ∧
    inUnitInterval unitWitnessScored.qualityScore ∧
    inUnitInterval unitWitnessScored.finalScore :=
  scores_clamped_to_unit_interval [sampleChunk 1] [outOfRangeRawScore]
    unitWitnessScored (by decide) (by decide)


theorem emitOne_small (n : Nat) (c : TextChunk)
    (h : ¬ (CHUNKING_CONFIG.maxChunkSize < c.metadata.wordCount)) :
    TextChunker.emitOne n c = [reposChunk n c] := by
  rw [TextChunker.emitOne, if_neg h]


/-! ### Chunk-size invariant support

The boundary search clamps every stride into `[minChunkSize,
maxChunkSize - minChunkSize]` words, so every chunk a document actually
produces carries between 300 and 1100 words before validation; the
validation pass then re-emits such chunks untouched.  The lemmas below
establish this chain, starting from the fact that splitting a trimmed
non-empty text yields only non-empty words. -/

/-- The head surviving `dropWhile p` refutes `p`. -/
theorem dropWhile_head_false {p : Char → Bool} :
    ∀ (l : List Char) (c : Char) (tl : List Char),
      l.dropWhile p = c :: tl → p c = false
  | [], c, tl, h => by simp at h
  | a :: rest, c, tl, h => by
    rw [List.dropWhile_cons] at h
    by_cases hp : p a = true
    · rw [if_pos hp] at h
      exact dropWhile_head_false rest c tl h
    · rw [if_neg hp] at h
      cases h
      simpa using hp

/-- `dropWhile` keeps the last element when its result is non-empty. -/
theorem getLast?_dropWhile {p : Char → Bool} :
    ∀ (l : List Char), l.dropWhile p ≠ [] → (l.dropWhile p).getLast? = l.getLast?
  | [], h => by simp at h
  | a :: rest, h => by
    rw [List.dropWhile_cons] at h ⊢
    by_cases hp : p a = true
    · rw [if_pos hp] at h ⊢
      have hrest : rest.dropWhile p ≠ [] := h
      rw [getLast?_dropWhile rest hrest]
      cases rest with
      | nil => simp at hrest
      | cons b bs => rw [List.getLast?_cons_cons]
    · rw [if_neg hp]

/-- No fragment of `splitWsAux` is empty, provided the input list ends in
a non-whitespace character, an empty accumulator is backed by some later
non-whitespace character, and outside a whitespace run an empty
accumulator faces a non-whitespace head. -/
theorem splitWsAux_ne_nil :
    ∀ (l : List Char) (inRun : Bool) (cur : List Char),
      (∀ c, l.getLast? = some c → isJsWs c = false) →
      (cur = [] → ∃ c ∈ l, isJsWs c = false) →
      (inRun = false → cur = [] → ∃ c tl, l = c :: tl ∧ isJsWs c = false) →
      ∀ w ∈ splitWsAux inRun cur l, w ≠ []
  | [], inRun, cur, hA, hB, hC, w, hw => by
    rw [splitWsAux] at hw
    rw [List.mem_singleton] at hw
    subst hw
    intro hnil
    have hcur : cur = [] := by
      have h2 := congrArg List.reverse hnil
      simpa using h2
    rcases hB hcur with ⟨c, hc, -⟩
    simp at hc
  | a :: rest, inRun, cur, hA, hB, hC, w, hw => by
    have hAr : ∀ c, rest.getLast? = some c → isJsWs c = false := by
      intro c hc
      apply hA c
      cases rest with
      | nil => simp at hc
      | cons b bs => rw [List.getLast?_cons_cons]; exact hc
    rw [splitWsAux] at hw
    by_cases hws : isJsWs a = true
    · rw [if_pos hws] at hw
      have hrest_ne : rest ≠ [] := by
        intro he
        subst he
        have hl := hA a (by simp)
        rw [hws] at hl
        exact Bool.noConfusion hl
      have hex : ∃ c ∈ rest, isJsWs c = false := by
        have hlast := List.getLast?_eq_getLast_of_ne_nil hrest_ne
        exact ⟨_, List.getLast_mem hrest_ne, hAr _ hlast⟩
      cases inRun with
      | true =>
        rw [if_pos rfl] at hw
        exact splitWsAux_ne_nil rest true cur hAr (fun _ => hex)
          (fun h => Bool.noConfusion h) w hw
      | false =>
        rw [if_neg (by simp)] at hw
        rcases List.mem_cons.mp hw with hcur | hrec
        · subst hcur
          intro hnil
          have hcurnil : cur = [] := by
            have h2 := congrArg List.reverse hnil
            simpa using h2
          rcases hC rfl hcurnil with ⟨c, tl, hl, hcf⟩
          cases hl
          rw [hws] at hcf
          exact Bool.noConfusion hcf
        · exact splitWsAux_ne_nil rest true [] hAr (fun _ => hex)
            (fun h => Bool.noConfusion h) w hrec
    · rw [if_neg hws] at hw
      exact splitWsAux_ne_nil rest false (a :: cur) hAr
        (fun h => List.noConfusion h)
        (fun _ h => List.noConfusion h) w hw

/-- Splitting a trimmed string that is non-empty yields only non-empty
words (the regular expression `\s+` cannot produce an empty fragment in
the interior, and trimming removed the boundary runs). -/
theorem jsSplitWs_trim_ne_empty (s : String) (h : jsTrim s ≠ "") :
    ∀ w ∈ jsSplitWs (jsTrim s), w ≠ "" := by
  intro w hw
  rw [jsSplitWs] at hw
  rcases List.mem_map.mp hw with ⟨frag, hfrag, rfl⟩
  have ht2 : ((s.toList.dropWhile isJsWs).reverse.dropWhile isJsWs).reverse ≠ [] := by
    intro he
    apply h
    rw [jsTrim, he]
    rfl
  have hA : ∀ c,
      (((s.toList.dropWhile isJsWs).reverse.dropWhile isJsWs).reverse).getLast? = some c →
      isJsWs c = false := by
    intro c hc
    rw [List.getLast?_reverse] at hc
    cases hX : (s.toList.dropWhile isJsWs).reverse.dropWhile isJsWs with
    | nil => rw [hX] at hc; simp at hc
    | cons d ds =>
      rw [hX] at hc
      simp at hc
      subst hc
      exact dropWhile_head_false _ _ _ hX
  have hex : ∃ c ∈ ((s.toList.dropWhile isJsWs).reverse.dropWhile isJsWs).reverse,
      isJsWs c = false := by
    have hlast := List.getLast?_eq_getLast_of_ne_nil ht2
    exact ⟨_, List.getLast_mem ht2, hA _ hlast⟩
  have hhead : ∃ c tl,
      ((s.toList.dropWhile isJsWs).reverse.dropWhile isJsWs).reverse = c :: tl ∧
      isJsWs c = false := by
    cases hX : ((s.toList.dropWhile isJsWs).reverse.dropWhile isJsWs).reverse with
    | nil => exact absurd hX ht2
    | cons c tl =>
      refine ⟨c, tl, rfl, ?_⟩
      have hh : (((s.toList.dropWhile isJsWs).reverse.dropWhile isJsWs).reverse).head?
          = some c := by rw [hX]; rfl
      rw [List.head?_reverse] at hh
      have hXne : (s.toList.dropWhile isJsWs).reverse.dropWhile isJsWs ≠ [] := by
        intro he
        apply ht2
        rw [he]
        rfl
      rw [getLast?_dropWhile _ hXne] at hh
      rw [List.getLast?_reverse] at hh
      cases hY : s.toList.dropWhile isJsWs with
      | nil => rw [hY] at hh; simp at hh
      | cons d ds =>
        rw [hY] at hh
        simp at hh
        subst hh
        exact dropWhile_head_false _ _ _ hY
  have htl : (jsTrim s).toList
      = ((s.toList.dropWhile isJsWs).reverse.dropWhile isJsWs).reverse := by
    rw [jsTrim]
    exact List.toList_asString _
  rw [htl] at hfrag
  have hne := splitWsAux_ne_nil _ false [] hA (fun _ => hex) (fun _ _ => hhead) frag hfrag
  intro hcontra
  apply hne
  have h2 := congrArg String.toList hcontra
  rw [List.toList_asString] at h2
  simpa using h2

/-- A non-empty string has positive length. -/
theorem length_pos_of_ne_empty (s : String) (h : s ≠ "") : 0 < s.length := by
  have hd : s.data ≠ [] := by
    intro he
    apply h
    cases s
    simp at he
    rw [he]
  have hl : s.length = s.data.length := rfl
  rw [hl]
  cases hx : s.data with
  | nil => exact absurd hx hd
  | cons c cs => simp

/-- Length of the `String.intercalate` worker. -/
theorem intercalate_go_length (sep : String) :
    ∀ (as : List String) (acc : String),
      (String.intercalate.go acc sep as).length =
        acc.length + (as.map (fun a => sep.length + a.length)).sum
  | [], acc => by simp [String.intercalate.go]
  | a :: as, acc => by
    rw [String.intercalate.go]
    rw [intercalate_go_length sep as (acc ++ sep ++ a)]
    simp [String.length_append]
    omega

/-- `joinLen` of a non-empty list: total word length plus one separator
between adjacent words. -/
theorem joinLen_eq (a : String) (as : List String) :
    joinLen (a :: as) + 1 = ((a :: as).map String.length).sum + (a :: as).length := by
  rw [joinLen, String.intercalate, intercalate_go_length]
  have hmap : ∀ (l : List String),
      (l.map (fun w => (" " : String).length + w.length)).sum
        = l.length + (l.map String.length).sum := by
    intro l
    induction l with
    | nil => simp
    | cons x xs ih =>
      have hsep : (" " : String).length = 1 := rfl
      simp [ih, hsep]
      omega
  rw [hmap]
  simp
  omega

/-- `joinLen` over a prefix, in terms of the word-length prefix sums. -/
theorem joinLen_take (ws : List String) (j : Nat) (hj1 : 1 ≤ j)
    (hjle : j ≤ ws.length) :
    joinLen (ws.take j) + 1 = ((ws.map String.length).take j).sum + j := by
  cases hws : ws.take j with
  | nil =>
    have hlen := congrArg List.length hws
    rw [List.length_take] at hlen
    simp only [List.length_nil] at hlen
    omega
  | cons a as =>
    have h1 := joinLen_eq a as
    rw [← hws] at h1 ⊢
    rw [List.map_take] at h1
    have hlen : (ws.take j).length = j := by
      rw [List.length_take]
      omega
    rw [hlen] at h1
    exact h1

/-- Prefix sums of a list of positive naturals grow at least by one per
additional element. -/
theorem sum_take_add_le (L : List Nat) (hpos : ∀ x ∈ L, 1 ≤ x) :
    ∀ (m a : Nat), a + m ≤ L.length → (L.take a).sum + m ≤ (L.take (a + m)).sum
  | 0, a, h => by simp
  | m + 1, a, h => by
    have h1 : a + m < L.length := by omega
    have step := List.sum_take_succ L (a + m) h1
    have hget : 1 ≤ L[a + m] := hpos _ (List.getElem_mem h1)
    have ih := sum_take_add_le L hpos m a (by omega)
    have hidx : a + (m + 1) = (a + m) + 1 := by omega
    rw [hidx, step]
    omega

/-- Moving the prefix end `m` words forward grows the joined length by at
least `2 * m` characters when every word is non-empty (one character and
one separator per word). -/
theorem joinLen_take_growth (ws : List String) (a m : Nat) (hw : ∀ w ∈ ws, w ≠ "")
    (h1 : 1 ≤ a) (h2 : a + m ≤ ws.length) :
    joinLen (ws.take a) + 2 * m ≤ joinLen (ws.take (a + m)) := by
  have hpos : ∀ x ∈ ws.map String.length, 1 ≤ x := by
    intro x hx
    rcases List.mem_map.mp hx with ⟨w, hwmem, rfl⟩
    exact length_pos_of_ne_empty w (hw w hwmem)
  have hA := joinLen_take ws a h1 (by omega)
  have hB := joinLen_take ws (a + m) (by omega) h2
  have hs := sum_take_add_le (ws.map String.length) hpos m a
    (by rw [List.length_map]; exact h2)
  omega

/-- `find?` over `range' s n` returns the first index satisfying the
predicate. -/
theorem find?_range'_first {p : Nat → Bool} (n s i : Nat)
    (h : (List.range' s n).find? p = some i) :
    s ≤ i ∧ i < s + n ∧ p i = true ∧ ∀ j, s ≤ j → j < i → p j = false := by
  simp at h
  obtain ⟨h3, ⟨h1, h2⟩, h4⟩ := h
  exact ⟨h1, h2, h3, h4⟩

/-- `find?` over `range n` returns the first index satisfying the
predicate. -/
theorem find?_range_first {p : Nat → Bool} {n i : Nat}
    (h : (List.range n).find? p = some i) :
    i < n ∧ p i = true ∧ ∀ j < i, p j = false := by
  rw [List.range_eq_range'] at h
  obtain ⟨h1, h2, h3, h4⟩ := find?_range'_first n 0 i h
  exact ⟨by omega, h3, fun j hj => h4 j (Nat.zero_le j) hj⟩

/-- Membership in the descending search range. -/
theorem mem_revRange {lo hi i : Nat} (h : i ∈ revRange lo hi) :
    lo ≤ i ∧ i ≤ hi := by
  rw [revRange, List.mem_reverse, List.mem_range'_1] at h
  omega

/-- The chunking configuration constants, exposed for arithmetic. -/
theorem chunkingConfig_eq :
    CHUNKING_CONFIG.targetChunkSize = 800 ∧ CHUNKING_CONFIG.minChunkSize = 300 ∧
      CHUNKING_CONFIG.maxChunkSize = 1200 ∧ CHUNKING_CONFIG.overlapSize = 100 :=
  ⟨rfl, rfl, rfl, rfl⟩

/-- The first word index reaching a section near the target character
position cannot lie more than 100 words past the target: within 200
characters of the target every extra word costs at least two characters. -/
theorem sectionWordIndex_bounds (words : List String) (secStart current swi : Nat)
    (hw : ∀ w ∈ words, w ≠ "")
    (hlen : current + 800 < words.length)
    (hnear : natDist secStart (joinLen (words.take (current + 800))) < 200)
    (hfind : (List.range words.length).find?
        (fun idx => secStart ≤ joinLen (words.take (idx + 1))) = some swi) :
    swi ≤ current + 900 ∧ swi < words.length := by
  obtain ⟨h1, h2, h3⟩ := find?_range_first hfind
  refine ⟨?_, h1⟩
  by_contra hgt
  push_neg at hgt
  have hj := h3 (current + 899) (by omega)
  simp at hj
  have hgrow := joinLen_take_growth words (current + 800) 100 hw (by omega) (by omega)
  have hidx : current + 800 + 100 = current + 899 + 1 := by omega
  rw [hidx] at hgrow
  rw [natDist] at hnear
  omega

/-- Strategy 1 keeps the boundary within `[current + 300, current + 900]`
and inside the word list whenever at least a full stride of words
remains. -/
theorem strategy1_bounds (words : List String) (sections : List SectionInfo)
    (current : Nat) (hw : ∀ w ∈ words, w ≠ "")
    (hlen : current + 800 < words.length) :
    current + 300 ≤ strategy1 words sections current (current + 800) ∧
      strategy1 words sections current (current + 800) ≤ current + 900 ∧
      strategy1 words sections current (current + 800) ≤ words.length := by
  generalize hsb : strategy1 words sections current (current + 800) = r
  rw [strategy1] at hsb
  rw [chunkingConfig_eq.2.1] at hsb
  split at hsb
  next sec hfind =>
    split at hsb
    next swi hfind2 =>
      split at hsb
      next hguard =>
        subst hsb
        have hnear : natDist sec.start (joinLen (words.take (current + 800))) < 200 := by
          have h2 := List.find?_some hfind
          simpa using h2
        obtain ⟨hA, hB⟩ :=
          sectionWordIndex_bounds words sec.start current swi hw hlen hnear hfind2
        omega
      next hguard => subst hsb; omega
    next hfind2 => subst hsb; omega
  next hfind => subst hsb; omega

/-- Strategy 2 preserves the stride bounds. -/
theorem strategy2_bounds (words : List String) (paragraphs : List ParaInfo)
    (current b1 : Nat) (hlen : current + 800 < words.length)
    (h1 : current + 300 ≤ b1) (h2 : b1 ≤ current + 900) (h3 : b1 ≤ words.length) :
    current + 300 ≤ strategy2 words paragraphs current (current + 800) b1 ∧
      strategy2 words paragraphs current (current + 800) b1 ≤ current + 900 ∧
      strategy2 words paragraphs current (current + 800) b1 ≤ words.length := by
  generalize hsb : strategy2 words paragraphs current (current + 800) b1 = r
  rw [strategy2] at hsb
  rw [chunkingConfig_eq.2.1] at hsb
  split at hsb
  · dsimp only [] at hsb
    split at hsb
    next i hfind =>
      subst hsb
      obtain ⟨hm1, hm2⟩ := mem_revRange (List.mem_of_find?_eq_some hfind)
      omega
    next hfind => subst hsb; omega
  · subst hsb; omega

/-- Strategy 3 preserves the stride bounds. -/
theorem strategy3_bounds (words : List String) (current b2 : Nat)
    (hlen : current + 800 < words.length)
    (h1 : current + 300 ≤ b2) (h2 : b2 ≤ current + 900) (h3 : b2 ≤ words.length) :
    current + 300 ≤ strategy3 words current (current + 800) b2 ∧
      strategy3 words current (current + 800) b2 ≤ current + 900 ∧
      strategy3 words current (current + 800) b2 ≤ words.length := by
  generalize hsb : strategy3 words current (current + 800) b2 = r
  rw [strategy3] at hsb
  rw [chunkingConfig_eq.2.1] at hsb
  split at hsb
  · dsimp only [] at hsb
    split at hsb
    next i hfind =>
      subst hsb
      obtain ⟨hm1, hm2⟩ := mem_revRange (List.mem_of_find?_eq_some hfind)
      omega
    next hfind => subst hsb; omega
  · subst hsb; omega

/-- The full strategy cascade keeps the boundary within
`[current + 300, current + 900]` and inside the word list. -/
theorem strategyBoundary_bounds (words : List String)
    (sections : List SectionInfo) (paragraphs : List ParaInfo) (current : Nat)
    (hw : ∀ w ∈ words, w ≠ "") (hlen : current + 800 < words.length) :
    current + 300 ≤ strategyBoundary words sections paragraphs current (current + 800) ∧
      strategyBoundary words sections paragraphs current (current + 800) ≤ current + 900 ∧
      strategyBoundary words sections paragraphs current (current + 800) ≤ words.length := by
  rw [strategyBoundary]
  obtain ⟨ha1, ha2, ha3⟩ := strategy1_bounds words sections current hw hlen
  obtain ⟨hb1, hb2, hb3⟩ := strategy2_bounds words paragraphs current _ hlen ha1 ha2 ha3
  exact strategy3_bounds words current _ hlen hb1 hb2 hb3

/-- On a boundary already within the stride window the final clamp is the
identity. -/
theorem clampBoundary_of_bounds (current len b : Nat)
    (h1 : current + 300 ≤ b) (h2 : b ≤ current + 900) :
    clampBoundary current len b = b := by
  rw [clampBoundary]
  rw [chunkingConfig_eq.2.1, chunkingConfig_eq.2.2.1]
  rw [if_neg (by omega), if_neg (by omega)]

/-- Every run of the boundary loop produces a chain of boundaries spaced
between 300 and 900 words apart, all inside the word list. -/
theorem boundariesLoop_chain (words : List String) (sections : List SectionInfo)
    (paragraphs : List ParaInfo) (hw : ∀ w ∈ words, w ≠ "") :
    ∀ (fuel current : Nat),
      List.Chain (fun a b => a + 300 ≤ b ∧ b ≤ a + 900) current
        (boundariesLoop fuel words sections paragraphs
          CHUNKING_CONFIG.targetChunkSize current) ∧
      ∀ b ∈ boundariesLoop fuel words sections paragraphs
          CHUNKING_CONFIG.targetChunkSize current, b ≤ words.length
  | 0, current => by
    rw [boundariesLoop]
    exact ⟨List.Chain.nil, by simp⟩
  | fuel + 1, current => by
    rw [boundariesLoop]
    by_cases hcur : current < words.length
    · rw [if_pos hcur]
      dsimp only []
      by_cases hstop : words.length ≤ min (current + CHUNKING_CONFIG.targetChunkSize) words.length
      · rw [if_pos hstop]
        exact ⟨List.Chain.nil, by simp⟩
      · rw [if_neg hstop]
        have hlen : current + 800 < words.length := by
          rw [chunkingConfig_eq.1] at hstop
          omega
        have htarget : min (current + CHUNKING_CONFIG.targetChunkSize) words.length
            = current + 800 := by
          rw [chunkingConfig_eq.1]
          omega
        rw [htarget]
        obtain ⟨hs1, hs2, hs3⟩ :=
          strategyBoundary_bounds words sections paragraphs current hw hlen
        rw [clampBoundary_of_bounds _ _ _ hs1 hs2]
        obtain ⟨ihc, ihm⟩ := boundariesLoop_chain words sections paragraphs hw fuel
          (strategyBoundary words sections paragraphs current (current + 800))
        refine ⟨List.Chain.cons ⟨hs1, hs2⟩ ihc, ?_⟩
        intro b hb
        rcases List.mem_cons.mp hb with hb1 | hb2
        · rw [hb1]; exact hs3
        · exact ihm b hb2
    · rw [if_neg hcur]
      exact ⟨List.Chain.nil, by simp⟩

/-- Indexing a zip indexes both lists. -/
theorem zip_get?_some {α β : Type} :
    ∀ (l1 : List α) (l2 : List β) (i : Nat) (a : α) (b : β),
      (l1.zip l2).get? i = some (a, b) →
      l1.get? i = some a ∧ l2.get? i = some b
  | [], l2, i, a, b, h => by simp at h
  | x :: l1, [], i, a, b, h => by simp at h
  | x :: l1, y :: l2, 0, a, b, h => by
    rw [List.zip_cons_cons] at h
    simp at h
    exact ⟨by simp [h.1], by simp [h.2]⟩
  | x :: l1, y :: l2, i + 1, a, b, h => by
    rw [List.zip_cons_cons] at h
    simp at h
    rw [← List.get?_eq_getElem?] at h
    have ih := zip_get?_some l1 l2 i a b h
    simpa using ih

/-- Consecutive elements of a chained list are related. -/
theorem chain_consec {R : Nat → Nat → Prop} :
    ∀ (bs : List Nat) (a : Nat), List.Chain R a bs →
      ∀ i s e, (a :: bs).get? i = some s → bs.get? i = some e → R s e
  | [], a, h, i, s, e, hs, he => by simp at he
  | b :: rest, a, h, 0, s, e, hs, he => by
    obtain ⟨hR, hrest⟩ := List.chain_cons.mp h
    simp at hs he
    rw [← hs, ← he]
    exact hR
  | b :: rest, a, h, i + 1, s, e, hs, he => by
    obtain ⟨hR, hrest⟩ := List.chain_cons.mp h
    exact chain_consec rest b hrest i s e (by simpa using hs) (by simpa using he)

/-- Every element of a `(+300, +900)`-chained list sits at least 300
above the head. -/
theorem chain_ge :
    ∀ (bs : List Nat) (a : Nat),
      List.Chain (fun x y => x + 300 ≤ y ∧ y ≤ x + 900) a bs →
      ∀ b ∈ bs, a + 300 ≤ b
  | [], a, h, b, hb => by simp at hb
  | c :: rest, a, h, b, hb => by
    obtain ⟨hR, hrest⟩ := List.chain_cons.mp h
    rcases List.mem_cons.mp hb with hb1 | hb2
    · rw [hb1]; exact hR.1
    · have := chain_ge rest c hrest b hb2
      omega

/-- Chunks materialized from a `(+300, +900)`-chained boundary list
carry between 300 and 1100 words: the stride plus at most two 100-word
overlap extensions. -/
theorem createChunks_wordCount_bounds (text : String) (input : TextChunkerInput)
    (bs : List Nat)
    (hchain : List.Chain (fun a b => a + 300 ≤ b ∧ b ≤ a + 900) 0 bs)
    (hle : ∀ b ∈ bs, b ≤ (jsSplitWs text).length) :
    ∀ c ∈ createChunksWithOverlap text (0 :: bs) input,
      300 ≤ c.metadata.wordCount ∧ c.metadata.wordCount ≤ 1100 := by
  intro c hc
  rw [createChunksWithOverlap] at hc
  dsimp only [] at hc
  rcases List.mem_filterMap.mp hc with ⟨⟨i, ps, pe⟩, hip, hf⟩
  rcases List.mem_iff_get?.mp hip with ⟨k, hk⟩
  rw [List.get?_eq_getElem?, List.getElem?_enum] at hk
  rcases Option.map_eq_some'.mp hk with ⟨p', hp', hpe⟩
  have hki : k = i := congrArg Prod.fst hpe
  have hpp : p' = (ps, pe) := congrArg Prod.snd hpe
  rw [hki, hpp] at hp'
  rw [← List.get?_eq_getElem?] at hp'
  obtain ⟨h1, h2⟩ := zip_get?_some (0 :: bs) bs i ps pe hp'
  have hRe : ps + 300 ≤ pe ∧ pe ≤ ps + 900 := chain_consec bs 0 hchain i ps pe h1 h2
  have hele : pe ≤ (jsSplitWs text).length := hle pe (List.get?_mem h2)
  have hs0 : i = 0 → ps = 0 := by
    intro h
    rw [h] at h1
    simp at h1
    omega
  have hsge : 0 < i → 300 ≤ ps := by
    intro h
    cases i with
    | zero => omega
    | succ j =>
      have h1' : bs.get? j = some ps := by simpa using h1
      have := chain_ge bs 0 hchain ps (List.get?_mem h1')
      omega
  dsimp only [] at hf
  rw [ite_eq_iff] at hf
  rcases hf with ⟨-, hnone⟩ | ⟨-, hsome⟩
  · exact Option.noConfusion hnone
  · rw [Option.some.injEq] at hsome
    subst hsome
    dsimp only []
    rw [List.length_take, List.length_drop]
    rw [chunkingConfig_eq.2.2.2]
    by_cases hi : 0 < i
    · rw [if_pos hi]
      by_cases hlast : i < ((0 :: bs).zip (0 :: bs).tail).length - 1
      · rw [if_pos hlast]
        have h3 := hsge hi
        omega
      · rw [if_neg hlast]
        have h3 := hsge hi
        omega
    · rw [if_neg hi]
      have h3 := hs0 (by omega)
      by_cases hlast : i < ((0 :: bs).zip (0 :: bs).tail).length - 1
      · rw [if_pos hlast]
        omega
      · rw [if_neg hlast]
        omega

/-- The validation pass re-emits chunks that already lie in
`[300, 1100]` untouched, so its output stays within the configured
`[minChunkSize, maxChunkSize]` bounds: no merge fires (no input is below
300 words) and no split fires (no input exceeds 1200 words). -/
theorem validateGo_inBounds :
    ∀ (fuel n : Nat) (l : List TextChunk),
      (∀ c ∈ l, 300 ≤ c.metadata.wordCount ∧ c.metadata.wordCount ≤ 1100) →
      ∀ c' ∈ validateGo fuel n l,
        300 ≤ c'.metadata.wordCount ∧ c'.metadata.wordCount ≤ 1200
  | 0, n, l, hl, c', h => by
    have he : validateGo 0 n l = [] := rfl
    rw [he] at h
    simp at h
  | fuel + 1, n, [], hl, c', h => by
    have he : validateGo (fuel + 1) n [] = [] := rfl
    rw [he] at h
    simp at h
  | fuel + 1, n, [c], hl, c', h => by
    have he : validateGo (fuel + 1) n [c] = emitOne n c := rfl
    rw [he] at h
    have hc := hl c (by simp)
    rw [emitOne_small n c (by rw [chunkingConfig_eq.2.2.1]; omega)] at h
    rw [List.mem_singleton] at h
    subst h
    have heq : (reposChunk n c).metadata.wordCount = c.metadata.wordCount := rfl
    rw [heq]
    omega
  | fuel + 1, n, c :: next :: rest2, hl, c', h => by
    have he : validateGo (fuel + 1) n (c :: next :: rest2) =
        if c.metadata.wordCount < CHUNKING_CONFIG.minChunkSize then
          (let mergedContent := c.content ++ " " ++ next.content
           let mergedWordCount := (jsSplitWs mergedContent).length
           if mergedWordCount ≤ CHUNKING_CONFIG.maxChunkSize then
             mkMergedChunk n c next mergedContent mergedWordCount ::
               validateGo fuel (n + 1) rest2
           else
             emitOne n c ++ validateGo fuel (n + (emitOne n c).length) (next :: rest2))
        else emitOne n c ++ validateGo fuel (n + (emitOne n c).length) (next :: rest2) :=
      rfl
    rw [he] at h
    have hc := hl c (by simp)
    rw [if_neg (by rw [chunkingConfig_eq.2.1]; omega)] at h
    rw [emitOne_small n c (by rw [chunkingConfig_eq.2.2.1]; omega)] at h
    rcases List.mem_append.mp h with h1 | h2
    · rw [List.mem_singleton] at h1
      subst h1
      have heq : (reposChunk n c).metadata.wordCount = c.metadata.wordCount := rfl
      rw [heq]
      omega
    · exact validateGo_inBounds fuel _ (next :: rest2)
        (fun d hd => hl d (List.mem_cons_of_mem c hd)) c' h2

set_option maxHeartbeats 2000000 in
/-- **C5** (confirmed): after the chunker's post-validation pass, every
chunk of a document except the document's last chunk satisfies
`minChunkSize (300) ≤ wordCount ≤ maxChunkSize (1200)`.  In fact every
chunk (the last included) does: the boundary clamp keeps consecutive
boundaries between 300 and 900 words apart and the final partial stride
is dropped, so each raw chunk carries 300–1100 words (stride plus at
most 200 overlap words) and the validation pass re-emits it unchanged. -/
theorem document_chunks_within_bounds (input : TextChunkerInput) :
    (((chunkText input).chunks).dropLast).all
      (fun c => decide (CHUNKING_CONFIG.minChunkSize ≤ c.metadata.wordCount ∧
        c.metadata.wordCount ≤ CHUNKING_CONFIG.maxChunkSize)) = true := by
  rw [List.all_eq_true]
  intro c hcd
  have hc : c ∈ (chunkText input).chunks := List.dropLast_subset _ hcd
  set pre := preprocessTextForChunking input.content with hpre
  set ws := jsSplitWs pre.processedText with hws
  set bs := boundariesLoop (ws.length + 1) ws pre.sections pre.paragraphs
      CHUNKING_CONFIG.targetChunkSize 0 with hbs
  set raw := createChunksWithOverlap pre.processedText (0 :: bs) input with hraw
  have hkey : (chunkText input).chunks = validateGo (raw.length + 1) 0 raw := rfl
  rw [hkey] at hc
  by_cases hempty : pre.processedText = ""
  · have hnil : validateGo (raw.length + 1) 0 raw = [] := by
      rw [hraw, hbs, hws, hempty]
      rfl
    rw [hnil] at hc
    simp at hc
  · have hpp : pre.processedText =
        jsTrim ((collapseSpTab (collapseNl (normalizeCr input.content.toList))).asString) := rfl
    have hwords : ∀ w ∈ ws, w ≠ "" := by
      rw [hws, hpp]
      exact jsSplitWs_trim_ne_empty _ (by rw [← hpp]; exact hempty)
    obtain ⟨hchain, hble⟩ := boundariesLoop_chain ws pre.sections pre.paragraphs hwords
      (ws.length + 1) 0
    rw [← hbs] at hchain hble
    have hlst : ∀ d ∈ raw, 300 ≤ d.metadata.wordCount ∧ d.metadata.wordCount ≤ 1100 := by
      rw [hraw]
      exact createChunks_wordCount_bounds pre.processedText input bs hchain
        (by rw [← hws]; exact hble)
    have hres := validateGo_inBounds (raw.length + 1) 0 raw hlst c hc
    simp only [decide_eq_true_eq]
    rw [chunkingConfig_eq.2.1, chunkingConfig_eq.2.2.1]
    omega
